import Mathlib

/-!
Verification of the cluster media routing core of `media-server-rust`.

The development shallowly embeds the Rust sources:
  * `packages/media_core/src/cluster.rs` (room hash, `MediaCluster`),
  * `packages/media_core/src/cluster/room/media_track/publisher.rs`
    (`RoomChannelPublisher`),
  * `bin/src/server/gateway/remote_rpc_handler.rs` (gateway dispatch),
  * `packages/transport_webrtc/src/worker.rs` (`MediaWorkerWebrtc`).

Machine integers are modelled as `Nat` with explicit reduction modulo `2 ^ 64`
where the Rust code computes in `u64`.  The `indexmap::IndexMap` /
`indexmap::IndexSet` containers are modelled as association lists with
insertion-order semantics, including the `swap_remove` operation that moves
the last entry into the removed slot.
-/

namespace MediaServer

/-! ### Association lists: a model of `indexmap::IndexMap` and `IndexSet` -/

/-- Lookup in an association list: value of the first entry with the given
key, as `IndexMap::get`. -/
def alookup {α β : Type} [DecidableEq α] : List (α × β) → α → Option β
  | [], _ => none
  | p :: rest, k => if p.1 = k then some p.2 else alookup rest k

/-- Insertion as `IndexMap::insert`: if the key is present its value is
replaced in place, otherwise the new entry is appended at the end. -/
def ainsert {α β : Type} [DecidableEq α] : List (α × β) → α → β → List (α × β)
  | [], k, v => [(k, v)]
  | p :: rest, k, v => if p.1 = k then (k, v) :: rest else p :: ainsert rest k v

/-- When `IndexMap::swap_remove` removes the entry at a position, the last
entry of the map is moved into that position.  `rotateLast l` is the tail of
the container after removing the current head: the last element followed by
the remaining middle part. -/
def rotateLast {α : Type} (l : List α) : List α :=
  match l.getLast? with
  | none => []
  | some last => last :: l.dropLast

/-- Removal of a key as `IndexMap::swap_remove` (without returning the
removed value): the removed slot receives the last entry. -/
def aswapRemoveGo {α β : Type} [DecidableEq α] : List (α × β) → α → List (α × β)
  | [], _ => []
  | p :: rest, k => if p.1 = k then rotateLast rest else p :: aswapRemoveGo rest k

/-- `IndexMap::swap_remove`: returns the removed value (if any) together with
the updated map. -/
def aswapRemove {α β : Type} [DecidableEq α] (m : List (α × β)) (k : α) :
    Option (β × List (α × β)) :=
  match alookup m k with
  | none => none
  | some v => some (v, aswapRemoveGo m k)

/-- Keys of an association list, in insertion order. -/
def akeys {α β : Type} (m : List (α × β)) : List α := m.map Prod.fst

/-- Insertion as `IndexSet::insert`: append at the end when absent. -/
def sinsert {α : Type} [DecidableEq α] (s : List α) (x : α) : List α :=
  if x ∈ s then s else s ++ [x]

/-- Element removal as `IndexSet::swap_remove` (on the list of elements). -/
def sswapRemoveGo {α : Type} [DecidableEq α] : List α → α → List α
  | [], _ => []
  | y :: rest, x => if y = x then rotateLast rest else y :: sswapRemoveGo rest x

/-- `IndexSet::swap_remove`: reports whether the element was present and
returns the updated set. -/
def sswapRemove {α : Type} [DecidableEq α] (s : List α) (x : α) : Bool × List α :=
  if x ∈ s then (true, sswapRemoveGo s x) else (false, s)

/-! #### Laws of the association-list operations -/

theorem rotateLast_perm {α : Type} (l : List α) : (rotateLast l).Perm l := by
  induction l using List.reverseRecOn with
  | nil => simp [rotateLast]
  | append_singleton l a _ =>
    simp only [rotateLast, List.getLast?_concat, List.dropLast_concat]
    exact (List.perm_append_singleton a l).symm

theorem rotateLast_mem {α : Type} {l : List α} {x : α} :
    x ∈ rotateLast l ↔ x ∈ l := (rotateLast_perm l).mem_iff

theorem rotateLast_nodup {α : Type} {l : List α} (h : l.Nodup) :
    (rotateLast l).Nodup := ((rotateLast_perm l).nodup_iff).mpr h

theorem alookup_mem {α β : Type} [DecidableEq α] {m : List (α × β)} {k : α} {v : β}
    (h : alookup m k = some v) : (k, v) ∈ m := by
  induction m with
  | nil => simp [alookup] at h
  | cons p rest ih =>
    by_cases hk : p.1 = k
    · subst hk
      simp only [alookup, if_pos rfl] at h
      cases h
      exact List.mem_cons.mpr (Or.inl (by rw [Prod.mk.eta]))
    · simp only [alookup, if_neg hk] at h
      exact List.mem_cons_of_mem _ (ih h)

theorem alookup_isSome_iff {α β : Type} [DecidableEq α] {m : List (α × β)} {k : α} :
    (alookup m k).isSome = true ↔ k ∈ akeys m := by
  induction m with
  | nil => simp [alookup, akeys]
  | cons p rest ih =>
    by_cases hk : p.1 = k
    · simp [alookup, hk, akeys]
    · have hk' : ¬ (k = p.1) := fun h => hk h.symm
      simp [alookup, hk, akeys, ih, hk']

theorem alookup_eq_none_iff {α β : Type} [DecidableEq α] {m : List (α × β)} {k : α} :
    alookup m k = none ↔ k ∉ akeys m := by
  rw [← alookup_isSome_iff]
  cases alookup m k <;> simp

theorem mem_alookup {α β : Type} [DecidableEq α] {m : List (α × β)} {k : α} {v : β}
    (hnd : (akeys m).Nodup) (h : (k, v) ∈ m) : alookup m k = some v := by
  induction m with
  | nil => simp at h
  | cons p rest ih =>
    rcases List.mem_cons.mp h with h1 | h1
    · subst h1
      simp [alookup]
    · have hk : p.1 ≠ k := by
        intro he
        have : k ∈ akeys rest := List.mem_map.mpr ⟨(k, v), h1, rfl⟩
        simp only [akeys, List.map_cons, List.nodup_cons] at hnd
        exact hnd.1 (he ▸ this)
      have hnd' : (akeys rest).Nodup := by
        simp only [akeys, List.map_cons, List.nodup_cons] at hnd
        exact hnd.2
      simp [alookup, hk, ih hnd' h1]

theorem mem_ainsert_of_ne {α β : Type} [DecidableEq α] {m : List (α × β)} {k : α}
    {v : β} {q : α × β} (hq : q ∈ m) (hne : q.1 ≠ k) : q ∈ ainsert m k v := by
  induction m with
  | nil => simp at hq
  | cons p rest ih =>
    rcases List.mem_cons.mp hq with h1 | h1
    · subst h1
      simp [ainsert, hne]
    · by_cases hk : p.1 = k
      · simp [ainsert, hk]
        right
        exact h1
      · simp only [ainsert, if_neg hk]
        exact List.mem_cons_of_mem _ (ih h1)

theorem self_mem_ainsert {α β : Type} [DecidableEq α] (m : List (α × β)) (k : α)
    (v : β) : (k, v) ∈ ainsert m k v := by
  induction m with
  | nil => simp [ainsert]
  | cons p rest ih =>
    by_cases hk : p.1 = k
    · simp [ainsert, hk]
    · simp only [ainsert, if_neg hk]
      exact List.mem_cons_of_mem _ ih

theorem mem_of_mem_ainsert {α β : Type} [DecidableEq α] {m : List (α × β)} {k : α}
    {v : β} {q : α × β} (hnd : (akeys m).Nodup) (h : q ∈ ainsert m k v) :
    q = (k, v) ∨ (q ∈ m ∧ q.1 ≠ k) := by
  induction m with
  | nil =>
    simp [ainsert] at h
    left
    exact h
  | cons p rest ih =>
    have hndr : (akeys rest).Nodup := by
      simp only [akeys, List.map_cons, List.nodup_cons] at hnd
      exact hnd.2
    by_cases hk : p.1 = k
    · simp only [ainsert, if_pos hk] at h
      rcases List.mem_cons.mp h with h1 | h1
      · left; exact h1
      · have hq : q.1 ≠ k := by
          intro he
          have hmem : q.1 ∈ akeys rest := List.mem_map.mpr ⟨q, h1, rfl⟩
          simp only [akeys, List.map_cons, List.nodup_cons] at hnd
          exact hnd.1 (hk ▸ he ▸ hmem)
        right
        exact ⟨List.mem_cons_of_mem _ h1, hq⟩
    · simp only [ainsert, if_neg hk] at h
      rcases List.mem_cons.mp h with h1 | h1
      · subst h1
        exact Or.inr ⟨List.mem_cons_self _ _, hk⟩
      · rcases ih hndr h1 with h2 | h2
        · left; exact h2
        · right; exact ⟨List.mem_cons_of_mem _ h2.1, h2.2⟩

theorem alookup_ainsert_self {α β : Type} [DecidableEq α] (m : List (α × β))
    (k : α) (v : β) : alookup (ainsert m k v) k = some v := by
  induction m with
  | nil => simp [ainsert, alookup]
  | cons p rest ih =>
    by_cases hk : p.1 = k
    · simp [ainsert, hk, alookup]
    · simp [ainsert, hk, alookup, ih]

theorem alookup_ainsert_ne {α β : Type} [DecidableEq α] (m : List (α × β))
    (k : α) (v : β) {k' : α} (hne : k' ≠ k) :
    alookup (ainsert m k v) k' = alookup m k' := by
  have hkk : ¬ (k = k') := fun h => hne h.symm
  induction m with
  | nil => simp [ainsert, alookup, hkk]
  | cons p rest ih =>
    by_cases hk : p.1 = k
    · simp [ainsert, alookup, hk, hkk]
    · simp [ainsert, alookup, hk, ih]

theorem akeys_ainsert_nodup {α β : Type} [DecidableEq α] {m : List (α × β)}
    (hnd : (akeys m).Nodup) (k : α) (v : β) : (akeys (ainsert m k v)).Nodup := by
  induction m with
  | nil => simp [ainsert, akeys]
  | cons p rest ih =>
    simp only [akeys, List.map_cons, List.nodup_cons] at hnd
    by_cases hk : p.1 = k
    · simp only [ainsert, if_pos hk, akeys, List.map_cons, List.nodup_cons]
      exact ⟨hk ▸ hnd.1, hnd.2⟩
    · simp only [ainsert, if_neg hk, akeys, List.map_cons, List.nodup_cons]
      refine ⟨?_, ih hnd.2⟩
      intro hmem
      rcases List.mem_map.mp hmem with ⟨q, hq, hq1⟩
      rcases mem_of_mem_ainsert hnd.2 hq with h1 | h1
      · exact hk (by rw [← hq1, h1])
      · exact hnd.1 (hq1 ▸ List.mem_map.mpr ⟨q, h1.1, rfl⟩)

theorem mem_aswapRemoveGo_iff {α β : Type} [DecidableEq α] {m : List (α × β)}
    (hnd : (akeys m).Nodup) {k : α} {q : α × β} :
    q ∈ aswapRemoveGo m k ↔ q ∈ m ∧ q.1 ≠ k := by
  induction m with
  | nil => simp [aswapRemoveGo]
  | cons p rest ih =>
    simp only [akeys, List.map_cons, List.nodup_cons] at hnd
    by_cases hk : p.1 = k
    · simp only [aswapRemoveGo, if_pos hk]
      rw [rotateLast_mem]
      constructor
      · intro h
        refine ⟨List.mem_cons_of_mem _ h, ?_⟩
        intro he
        exact hnd.1 (hk ▸ he ▸ List.mem_map.mpr ⟨q, h, rfl⟩)
      · intro ⟨h1, h2⟩
        rcases List.mem_cons.mp h1 with h3 | h3
        · exact absurd (h3 ▸ hk) h2
        · exact h3
    · simp only [aswapRemoveGo, if_neg hk, List.mem_cons, ih hnd.2]
      constructor
      · rintro (h | ⟨h1, h2⟩)
        · exact ⟨Or.inl h, h ▸ hk⟩
        · exact ⟨Or.inr h1, h2⟩
      · rintro ⟨h1 | h1, h2⟩
        · exact Or.inl h1
        · exact Or.inr ⟨h1, h2⟩

theorem akeys_aswapRemoveGo_nodup {α β : Type} [DecidableEq α] {m : List (α × β)}
    (hnd : (akeys m).Nodup) (k : α) : (akeys (aswapRemoveGo m k)).Nodup := by
  induction m with
  | nil => simp [aswapRemoveGo, akeys]
  | cons p rest ih =>
    simp only [akeys, List.map_cons, List.nodup_cons] at hnd
    by_cases hk : p.1 = k
    · simp only [aswapRemoveGo, if_pos hk]
      exact ((rotateLast_perm rest).map Prod.fst).nodup_iff.mpr hnd.2
    · simp only [aswapRemoveGo, if_neg hk, akeys, List.map_cons, List.nodup_cons]
      refine ⟨?_, ih hnd.2⟩
      intro hmem
      rcases List.mem_map.mp hmem with ⟨q, hq, hq1⟩
      have := (mem_aswapRemoveGo_iff hnd.2).mp hq
      exact hnd.1 (hq1 ▸ List.mem_map.mpr ⟨q, this.1, rfl⟩)

theorem alookup_aswapRemoveGo {α β : Type} [DecidableEq α] {m : List (α × β)}
    (hnd : (akeys m).Nodup) (k k' : α) :
    alookup (aswapRemoveGo m k) k' = if k' = k then none else alookup m k' := by
  by_cases hkk : k' = k
  · subst hkk
    rw [if_pos rfl, alookup_eq_none_iff]
    intro hmem
    rcases List.mem_map.mp hmem with ⟨q, hq, hq1⟩
    exact ((mem_aswapRemoveGo_iff hnd).mp hq).2 hq1
  · rw [if_neg hkk]
    cases hv : alookup m k' with
    | none =>
      rw [alookup_eq_none_iff] at hv ⊢
      intro hmem
      rcases List.mem_map.mp hmem with ⟨q, hq, hq1⟩
      exact hv (hq1 ▸ List.mem_map.mpr ⟨q, ((mem_aswapRemoveGo_iff hnd).mp hq).1, rfl⟩)
    | some v =>
      have hq : (k', v) ∈ aswapRemoveGo m k :=
        (mem_aswapRemoveGo_iff hnd).mpr ⟨alookup_mem hv, hkk⟩
      exact mem_alookup (akeys_aswapRemoveGo_nodup hnd k) hq

theorem mem_sinsert_iff {α : Type} [DecidableEq α] {s : List α} {x y : α} :
    y ∈ sinsert s x ↔ y = x ∨ y ∈ s := by
  unfold sinsert
  by_cases hx : x ∈ s
  · simp only [if_pos hx]
    constructor
    · exact Or.inr
    · rintro (rfl | h)
      · exact hx
      · exact h
  · simp [if_neg hx, or_comm]

theorem sinsert_ne_nil {α : Type} [DecidableEq α] (s : List α) (x : α) :
    sinsert s x ≠ [] := by
  unfold sinsert
  by_cases hx : x ∈ s
  · simp only [if_pos hx]
    intro h
    exact absurd (h ▸ hx) (List.not_mem_nil x)
  · simp [if_neg hx]

theorem sinsert_nodup {α : Type} [DecidableEq α] {s : List α} (hnd : s.Nodup)
    (x : α) : (sinsert s x).Nodup := by
  unfold sinsert
  by_cases hx : x ∈ s
  · simpa [if_pos hx] using hnd
  · simp only [if_neg hx]
    exact List.Nodup.append hnd (List.nodup_singleton x)
      (List.disjoint_singleton.mpr hx)

theorem mem_sswapRemoveGo_iff {α : Type} [DecidableEq α] {s : List α}
    (hnd : s.Nodup) {x y : α} : y ∈ sswapRemoveGo s x ↔ y ∈ s ∧ y ≠ x := by
  induction s with
  | nil => simp [sswapRemoveGo]
  | cons z rest ih =>
    simp only [List.nodup_cons] at hnd
    by_cases hz : z = x
    · simp only [sswapRemoveGo, if_pos hz]
      rw [rotateLast_mem]
      constructor
      · intro h
        refine ⟨List.mem_cons_of_mem _ h, ?_⟩
        intro he
        exact hnd.1 (hz ▸ he ▸ h)
      · intro ⟨h1, h2⟩
        rcases List.mem_cons.mp h1 with h3 | h3
        · exact absurd (h3.trans hz) h2
        · exact h3
    · simp only [sswapRemoveGo, if_neg hz, List.mem_cons, ih hnd.2]
      constructor
      · rintro (rfl | ⟨h1, h2⟩)
        · exact ⟨Or.inl rfl, hz⟩
        · exact ⟨Or.inr h1, h2⟩
      · rintro ⟨h1 | h1, h2⟩
        · exact Or.inl h1
        · exact Or.inr ⟨h1, h2⟩

theorem sswapRemoveGo_nodup {α : Type} [DecidableEq α] {s : List α}
    (hnd : s.Nodup) (x : α) : (sswapRemoveGo s x).Nodup := by
  induction s with
  | nil => simp [sswapRemoveGo]
  | cons z rest ih =>
    simp only [List.nodup_cons] at hnd
    by_cases hz : z = x
    · simp only [sswapRemoveGo, if_pos hz]
      exact rotateLast_nodup hnd.2
    · simp only [sswapRemoveGo, if_neg hz, List.nodup_cons]
      refine ⟨?_, ih hnd.2⟩
      intro hmem
      exact hnd.1 ((mem_sswapRemoveGo_iff hnd.2).mp hmem).1

/-! ### SipHash-1-3

`ClusterRoomHash::generate` uses `std::hash::DefaultHasher`, which is
SipHash-1-3 with both keys zero.  Hashing a Rust `String` feeds the UTF-8
bytes of the string followed by the terminator byte `0xff` into the hasher.
All `u64` arithmetic is modelled as `Nat` reduced modulo `2 ^ 64`. -/

/-- Reduction of a `Nat` to a 64-bit word. -/
def wrap64 (x : Nat) : Nat := x % 2 ^ 64

/-- 64-bit left rotation of a word. -/
def rotl64 (x r : Nat) : Nat := wrap64 (x <<< r) ||| (x >>> (64 - r))

/-- Internal state of the SipHash permutation. -/
structure SipState where
  v0 : Nat
  v1 : Nat
  v2 : Nat
  v3 : Nat

/-- One round of the SipHash permutation. -/
def sipRound (s : SipState) : SipState :=
  let v0a := wrap64 (s.v0 + s.v1)
  let v1a := rotl64 s.v1 13
  let v1b := v1a ^^^ v0a
  let v0b := rotl64 v0a 32
  let v2a := wrap64 (s.v2 + s.v3)
  let v3a := rotl64 s.v3 16
  let v3b := v3a ^^^ v2a
  let v0c := wrap64 (v0b + v3b)
  let v3c := rotl64 v3b 21
  let v3d := v3c ^^^ v0c
  let v2b := wrap64 (v2a + v1b)
  let v1c := rotl64 v1b 17
  let v1d := v1c ^^^ v2b
  let v2c := rotl64 v2b 32
  ⟨v0c, v1d, v2c, v3d⟩

/-- Little-endian value of a byte list. -/
def leValue : List Nat → Nat
  | [] => 0
  | b :: rest => b + 256 * leValue rest

/-- The 64-bit message words of a SipHash input of total length `len`: full
8-byte little-endian words, then a final word holding the remaining bytes
with `len % 256` in the top byte. -/
def sipWords (len : Nat) : List Nat → List Nat
  | b0 :: b1 :: b2 :: b3 :: b4 :: b5 :: b6 :: b7 :: rest =>
      leValue [b0, b1, b2, b3, b4, b5, b6, b7] :: sipWords len rest
  | bs => [leValue bs + len % 256 * 2 ^ 56]

/-- Compression of one message word: xor into `v3`, one round (`c = 1`),
xor into `v0`. -/
def sipCompress (s : SipState) (m : Nat) : SipState :=
  let s1 := sipRound { s with v3 := s.v3 ^^^ m }
  { s1 with v0 := s1.v0 ^^^ m }

/-- Finalization: xor `0xff` into `v2`, three rounds (`d = 3`), xor of the
four state words. -/
def sipFinish (s : SipState) : Nat :=
  let s1 := { s with v2 := s.v2 ^^^ 0xff }
  let s2 := sipRound (sipRound (sipRound s1))
  wrap64 (s2.v0 ^^^ s2.v1 ^^^ s2.v2 ^^^ s2.v3)

/-- SipHash-1-3 of a byte list with both keys zero, as computed by
`std::hash::DefaultHasher`.  With `k0 = k1 = 0` the initial state is just
the four SipHash constants. -/
def sipHash13 (bs : List Nat) : Nat :=
  let s0 : SipState :=
    ⟨0x736f6d6570736575, 0x646f72616e646f6d, 0x6c7967656e657261, 0x7465646279746573⟩
  sipFinish ((sipWords bs.length bs).foldl sipCompress s0)

theorem sipHash13_lt (bs : List Nat) : sipHash13 bs < 2 ^ 64 := by
  unfold sipHash13 sipFinish wrap64
  exact Nat.mod_lt _ (by norm_num)

/-- Byte stream fed to the hasher for a Rust `String`: the UTF-8 bytes
followed by the terminator byte `0xff` (`Hash for str`). -/
def stringHashBytes (s : List Nat) : List Nat := s ++ [255]

/-- Byte stream `ClusterRoomHash::generate` feeds to `DefaultHasher`:
`app.app.hash(&mut hash); room.as_ref().hash(&mut hash)`, each string
contributing its bytes plus the `0xff` terminator. -/
def roomHashInput (app room : List Nat) : List Nat :=
  stringHashBytes app ++ stringHashBytes room

/-- `ClusterRoomHash::generate(app, room)`: finish a zero-key
`DefaultHasher` over the app id then the room id.  App id and room id are
given as their UTF-8 byte lists. -/
def ClusterRoomHash.generate (app room : List Nat) : Nat :=
  sipHash13 (roomHashInput app room)

/-! Binary-digit injectivity, used to build an injective family of more than
`2 ^ 64` ASCII app ids. -/

theorem digit_inj (k : Nat) : ∀ m n : Nat, m < 2 ^ k → n < 2 ^ k →
    (∀ i, i < k → m / 2 ^ i % 2 = n / 2 ^ i % 2) → m = n := by
  induction k with
  | zero =>
    intro m n hm hn _
    simp only [pow_zero, Nat.lt_one_iff] at hm hn
    rw [hm, hn]
  | succ k ih =>
    intro m n hm hn hd
    have h0 : m % 2 = n % 2 := by simpa using hd 0 (Nat.succ_pos k)
    have hq : m / 2 = n / 2 := by
      refine ih (m / 2) (n / 2) ?_ ?_ ?_
      · rw [Nat.div_lt_iff_lt_mul (by norm_num)]
        calc m < 2 ^ (k + 1) := hm
          _ = 2 ^ k * 2 := by ring
      · rw [Nat.div_lt_iff_lt_mul (by norm_num)]
        calc n < 2 ^ (k + 1) := hn
          _ = 2 ^ k * 2 := by ring
      · intro i hi
        have h1 := hd (i + 1) (by omega)
        have e : ∀ x : Nat, x / 2 / 2 ^ i = x / 2 ^ (i + 1) := by
          intro x
          rw [Nat.div_div_eq_div_mul]
          congr 1
          ring
        rw [e m, e n]
        exact h1
    omega

/-- An injective family of ASCII app ids: the 65 binary digits of `n`
written with the letters `a` (97) and `b` (98). -/
def encodeApp (n : Nat) : List Nat :=
  (List.range 65).map fun i => 97 + n / 2 ^ i % 2

theorem encodeApp_valid (n : Nat) : ∀ b ∈ encodeApp n, b < 128 := by
  intro b hb
  rcases List.mem_map.mp hb with ⟨i, _, rfl⟩
  have : n / 2 ^ i % 2 < 2 := Nat.mod_lt _ (by norm_num)
  omega

theorem encodeApp_inj {m n : Nat} (hm : m < 2 ^ 65) (hn : n < 2 ^ 65)
    (h : encodeApp m = encodeApp n) : m = n := by
  refine digit_inj 65 m n hm hn ?_
  intro i hi
  have h1 := congrArg (fun l => l[i]?) h
  simp [encodeApp, hi] at h1
  omega

/-! ### Claim C1: room hash determinism and app separation -/

/-- Prefix-freeness of the `0xff`-terminated string encoding: if the bytes
before the first separator are genuine string bytes (never `0xff = 255`),
the separator position is determined. -/
theorem sep_append_inj : ∀ a1 a2 s1 s2 : List Nat,
    (∀ b ∈ a1, b < 255) → (∀ b ∈ a2, b < 255) →
    a1 ++ 255 :: s1 = a2 ++ 255 :: s2 → a1 = a2 ∧ s1 = s2 := by
  intro a1
  induction a1 with
  | nil =>
    intro a2 s1 s2 _ h2 h
    cases a2 with
    | nil => simpa using h
    | cons y rest2 =>
      simp only [List.nil_append, List.cons_append, List.cons.injEq] at h
      have hy := h2 y (List.mem_cons_self _ _)
      omega
  | cons x rest ih =>
    intro a2 s1 s2 h1 h2 h
    cases a2 with
    | nil =>
      simp only [List.nil_append, List.cons_append, List.cons.injEq] at h
      have hx := h1 x (List.mem_cons_self _ _)
      omega
    | cons y rest2 =>
      simp only [List.cons_append, List.cons.injEq] at h
      obtain ⟨hxy, h'⟩ := h
      obtain ⟨hr, hs⟩ := ih rest2 s1 s2 (fun b hb => h1 b (List.mem_cons_of_mem _ hb))
        (fun b hb => h2 b (List.mem_cons_of_mem _ hb)) h'
      exact ⟨by rw [hxy, hr], hs⟩

/-- The byte stream fed to the hasher determines the `(app, room)` pair, for
genuine UTF-8 strings (which never contain the byte `0xff = 255`). -/
theorem roomHashInput_inj {a1 r1 a2 r2 : List Nat}
    (ha1 : ∀ b ∈ a1, b < 255) (ha2 : ∀ b ∈ a2, b < 255)
    (h : roomHashInput a1 r1 = roomHashInput a2 r2) : a1 = a2 ∧ r1 = r2 := by
  have h' : a1 ++ 255 :: (r1 ++ [255]) = a2 ++ 255 :: (r2 ++ [255]) := by
    simpa [roomHashInput, stringHashBytes, List.append_assoc] using h
  obtain ⟨hA, hR⟩ := sep_append_inj a1 a2 _ _ ha1 ha2 h'
  exact ⟨hA, List.append_cancel_right hR⟩

/-- Modelled from the spec: the multi-tenant isolation scenario uses the app
ids `root`, `app1`, `app2` (UTF-8 bytes). -/
def rootAppBytes : List Nat := [114, 111, 111, 116]

/-- UTF-8 bytes of the app id `app1`. -/
def app1Bytes : List Nat := [97, 112, 112, 49]

/-- UTF-8 bytes of the app id `app2`. -/
def app2Bytes : List Nat := [97, 112, 112, 50]

/-- UTF-8 bytes of the room name `same_room`. -/
def sameRoomBytes : List Nat := [115, 97, 109, 101, 95, 114, 111, 111, 109]

example :
    ClusterRoomHash.generate rootAppBytes sameRoomBytes ≠
      ClusterRoomHash.generate app1Bytes sameRoomBytes := by decide

/-- C1, counterexample.  The claim that distinct apps sharing a room name
never collide is false for the 64-bit hash: there are more than `2 ^ 64`
distinct ASCII app ids, so by pigeonhole two distinct apps receive the same
`ClusterRoomHash` for the room `same_room`.  The statement below negates the
claim restricted to genuine ASCII app ids (every byte below 128). -/
theorem C1_room_hash_collision_exists :
    ¬ (∀ a1 a2 : List Nat, (∀ b ∈ a1, b < 128) → (∀ b ∈ a2, b < 128) →
        a1 ≠ a2 →
        ClusterRoomHash.generate a1 sameRoomBytes ≠
          ClusterRoomHash.generate a2 sameRoomBytes) := by
  intro hclaim
  have hcard : Fintype.card (Fin (2 ^ 64)) < Fintype.card (Fin (2 ^ 64 + 1)) := by
    rw [Fintype.card_fin, Fintype.card_fin]
    exact Nat.lt_succ_self _
  obtain ⟨a, b, hne, heq⟩ := Fintype.exists_ne_map_eq_of_card_lt
    (fun n : Fin (2 ^ 64 + 1) =>
      (⟨ClusterRoomHash.generate (encodeApp n.1) sameRoomBytes,
        sipHash13_lt _⟩ : Fin (2 ^ 64))) hcard
  have hlt : (2 : Nat) ^ 64 + 1 ≤ 2 ^ 65 := by norm_num
  have henc : encodeApp a.1 ≠ encodeApp b.1 := fun he =>
    hne (Fin.ext (encodeApp_inj (lt_of_lt_of_le a.2 hlt) (lt_of_lt_of_le b.2 hlt) he))
  exact hclaim (encodeApp a.1) (encodeApp b.1) (encodeApp_valid _) (encodeApp_valid _)
    henc (congrArg Fin.val heq)

/-- C1 (amended).  For every fixed `(app, name)` pair the hash is the same
value (the hasher is unseeded and deterministic); distinct apps always
produce distinct hasher input byte streams (the `0xff`-terminated encoding
is injective on UTF-8 strings, whose bytes are never `255`), and in the
multi-tenant isolation scenario the apps `root`, `app1`, `app2` with room
`same_room` receive pairwise distinct hashes.  Collision freedom for all
distinct app pairs cannot hold for a 64-bit hash and is dropped. -/
theorem C1_room_hash_deterministic_and_input_injective
    (app room a1 r1 a2 r2 : List Nat)
    (ha1 : ∀ b ∈ a1, b < 255) (ha2 : ∀ b ∈ a2, b < 255) :
    ClusterRoomHash.generate app room = ClusterRoomHash.generate app room ∧
    (roomHashInput a1 r1 = roomHashInput a2 r2 → a1 = a2 ∧ r1 = r2) ∧
    ClusterRoomHash.generate rootAppBytes sameRoomBytes ≠
      ClusterRoomHash.generate app1Bytes sameRoomBytes ∧
    ClusterRoomHash.generate rootAppBytes sameRoomBytes ≠
      ClusterRoomHash.generate app2Bytes sameRoomBytes ∧
    ClusterRoomHash.generate app1Bytes sameRoomBytes ≠
      ClusterRoomHash.generate app2Bytes sameRoomBytes :=
  ⟨rfl, roomHashInput_inj ha1 ha2, by decide, by decide, by decide⟩

/-- Witness for `C1_room_hash_deterministic_and_input_injective` at concrete
byte strings. -/
theorem C1_room_hash_deterministic_witness :
    ((∀ b ∈ [97], b < 255) ∧ (∀ b ∈ [98], b < 255)) ∧
    (ClusterRoomHash.generate [104] [105] = ClusterRoomHash.generate [104] [105] ∧
     (roomHashInput [97] [99] = roomHashInput [98] [100] → [97] = [98] ∧ [99] = [100]) ∧
     ClusterRoomHash.generate rootAppBytes sameRoomBytes ≠
       ClusterRoomHash.generate app1Bytes sameRoomBytes ∧
     ClusterRoomHash.generate rootAppBytes sameRoomBytes ≠
       ClusterRoomHash.generate app2Bytes sameRoomBytes ∧
     ClusterRoomHash.generate app1Bytes sameRoomBytes ≠
       ClusterRoomHash.generate app2Bytes sameRoomBytes) :=
  ⟨⟨by decide, by decide⟩,
    C1_room_hash_deterministic_and_input_injective [104] [105] [97] [99] [98] [100]
      (by decide) (by decide)⟩

/-! ### The media-track publisher (`RoomChannelPublisher`)

From `packages/media_core/src/cluster/room/media_track/publisher.rs`.  The
publisher is generic over the endpoint handle type `E`. -/

/-- Modelled from the spec: the pub/sub feedback payload of the sdn crate,
`Feedback{kind:u8, value:u64, min:u64, max:u64}` (spec section 6) plus the
aggregation interval bounds.  `Feedback::simple(kind, value,
interval_min_ms, interval_max_ms)` builds a single-sample feedback whose
`value`, `min` and `max` all equal `value`; the interval arguments only
control aggregation timing. -/
structure Feedback where
  kind : Nat
  value : Nat
  min : Nat
  max : Nat
  interval_min_ms : Nat
  interval_max_ms : Nat
deriving DecidableEq

/-- `Feedback::simple` of the sdn crate (see `Feedback`). -/
def Feedback.simple (kind value interval_min_ms interval_max_ms : Nat) : Feedback :=
  ⟨kind, value, value, value, interval_min_ms, interval_max_ms⟩

/-- `FeedbackKind` from `publisher.rs`: the decoded feedback. -/
inductive FeedbackKind
  | Bitrate (min max : Nat)
  | KeyFrameRequest
deriving DecidableEq

/-- `TryFrom<Feedback> for FeedbackKind`: kind 0 is a bitrate limit carrying
the feedback's `min`/`max`, kind 1 a key-frame request, anything else is an
error. -/
def FeedbackKind.tryFrom (value : Feedback) : Option FeedbackKind :=
  match value.kind with
  | 0 => some (.Bitrate value.min value.max)
  | 1 => some .KeyFrameRequest
  | _ => none

/-- Modelled from the spec: the `MediaMeta` variants of the media packet
(spec section 6); codec payloads beyond the Opus audio level are not used by
the embedded components and are represented by their tag. -/
inductive MediaMeta
  | Opus (audio_level : Option Int)
  | H264
  | Vp8
  | Vp9
deriving DecidableEq

/-- `MediaPacket` wire fields (spec section 6). -/
structure MediaPacket where
  ts : Nat
  seq : Nat
  marker : Bool
  nackable : Bool
  layers : Option (List Nat)
  meta : MediaMeta
  data : List Nat
deriving DecidableEq

/-- `k` little-endian bytes of `x`. -/
def natLeBytes : Nat → Nat → List Nat
  | 0, _ => []
  | k + 1, x => x % 256 :: natLeBytes k (x / 256)

/-- Byte of a boolean flag. -/
def boolByte (b : Bool) : Nat := if b then 1 else 0

/-- Modelled from the spec: a canonical length-prefixed binary encoding of
the metadata (the spec allows any stable encoding; the protobuf details of
the reference are outside the provided sources). -/
def MediaMeta.serialize : MediaMeta → List Nat
  | .Opus none => [0, 0]
  | .Opus (some lvl) => [0, 1, ((lvl % 256).toNat)]
  | .H264 => [1]
  | .Vp8 => [2]
  | .Vp9 => [3]

/-- Modelled from the spec: `MediaPacket::serialize`, a stable
length-prefixed binary encoding of the packet fields. -/
def MediaPacket.serialize (p : MediaPacket) : List Nat :=
  natLeBytes 4 p.ts ++ natLeBytes 2 p.seq ++ [boolByte p.marker, boolByte p.nackable] ++
    (match p.layers with
     | none => [0]
     | some l => 1 :: natLeBytes 2 l.length ++ l) ++
    p.meta.serialize ++ natLeBytes 4 p.data.length ++ p.data

/-- `ClusterRemoteTrackEvent` from `cluster.rs`. -/
inductive ClusterRemoteTrackEvent
  | RequestKeyFrame
  | LimitBitrate (min max : Nat)
deriving DecidableEq

/-- `ClusterEndpointEvent` from `cluster.rs`, restricted to the
constructors produced by the components embedded here; peer ids, track
names and metadata payloads are byte lists. -/
inductive ClusterEndpointEvent
  | PeerJoined (peer meta : List Nat)
  | PeerLeaved (peer meta : List Nat)
  | TrackStarted (peer name meta : List Nat)
  | TrackStopped (peer name meta : List Nat)
  | RemoteTrack (track : Nat) (event : ClusterRemoteTrackEvent)
deriving DecidableEq

/-- The sdn `ChannelControl` operations (spec section 6). -/
inductive ChannelControl
  | PubStart
  | PubData (data : List Nat)
  | PubStop
  | SubAuto
  | UnsubAuto
  | FeedbackAuto (fb : Feedback)
deriving DecidableEq

/-- The `media_track` output enum (`room/media_track/mod.rs`): endpoint
events, pub/sub channel controls (`pubsub::Control(channel, control)`
flattened into its two fields) and the resource-empty event. -/
inductive MediaTrackOutput (E : Type)
  | Endpoint (endpoints : List E) (event : ClusterEndpointEvent)
  | Pubsub (channel : Nat) (control : ChannelControl)
  | OnResourceEmpty
deriving DecidableEq

/-- Modelled from the spec: `gen_track_channel_id(room_hash, peer, name) =
H(room_hash ‖ peer ‖ name)` with a hash that is identical across nodes
(`id_generator.rs` is not among the provided sources); here SipHash-1-3 of
the eight room-hash bytes followed by the peer and name bytes. -/
def gen_track_channel_id (room : Nat) (peer name : List Nat) : Nat :=
  sipHash13 (natLeBytes 8 room ++ peer ++ name)

/-- `RoomChannelPublisher`: the two insertion-ordered indexes and the output
queue (the `Count` instrumentation field carries no state). -/
structure RoomChannelPublisher (E : Type) where
  room : Nat
  tracks : List ((E × Nat) × (List Nat × List Nat × Nat))
  tracks_source : List (Nat × List (E × Nat))
  queue : List (MediaTrackOutput E)
deriving DecidableEq

namespace RoomChannelPublisher

variable {E : Type} [DecidableEq E]

/-- `RoomChannelPublisher::new`. -/
def new (room : Nat) : RoomChannelPublisher E := ⟨room, [], [], []⟩

/-- `on_track_feedback`: decode the feedback (unknown kinds return early),
look up the channel's sources (missing channel returns early) and push one
endpoint event per source. -/
def on_track_feedback (self : RoomChannelPublisher E) (channel : Nat)
    (fb : Feedback) : RoomChannelPublisher E :=
  match FeedbackKind.tryFrom fb with
  | none => self
  | some fbk =>
    match alookup self.tracks_source channel with
    | none => self
    | some sources =>
      { self with
          queue := self.queue ++ sources.map fun et =>
            match fbk with
            | .Bitrate mn mx =>
                .Endpoint [et.1] (.RemoteTrack et.2 (.LimitBitrate mn mx))
            | .KeyFrameRequest =>
                .Endpoint [et.1] (.RemoteTrack et.2 .RequestKeyFrame) }

/-- `on_track_publish`: register the track under its channel id; when the
channel's source set was empty, emit `PubStart` before inserting. -/
def on_track_publish (self : RoomChannelPublisher E) (endpoint : E)
    (track : Nat) (peer name : List Nat) : RoomChannelPublisher E :=
  let channel_id := gen_track_channel_id self.room peer name
  let tracks := ainsert self.tracks (endpoint, track) (peer, name, channel_id)
  let sources := (alookup self.tracks_source channel_id).getD []
  let queue :=
    if sources = [] then self.queue ++ [.Pubsub channel_id .PubStart]
    else self.queue
  { self with
      tracks := tracks
      tracks_source := ainsert self.tracks_source channel_id
        (sinsert sources (endpoint, track))
      queue := queue }

/-- `on_track_data`: look up the channel of the track and emit the
serialized packet; an unknown track returns early. -/
def on_track_data (self : RoomChannelPublisher E) (endpoint : E) (track : Nat)
    (media : MediaPacket) : RoomChannelPublisher E :=
  match alookup self.tracks (endpoint, track) with
  | none => self
  | some (_peer, _name, channel_id) =>
    { self with
        queue := self.queue ++ [.Pubsub channel_id (.PubData media.serialize)] }

/-- `on_track_unpublish`: remove the track from both indexes; the source set
must exist (`expect`) and must contain the track (`assert!`), both modelled
as `none`; when the source set becomes empty the channel entry is removed
and `PubStop` is emitted. -/
def on_track_unpublish (self : RoomChannelPublisher E) (endpoint : E)
    (track : Nat) : Option (RoomChannelPublisher E) :=
  match aswapRemove self.tracks (endpoint, track) with
  | none => some self
  | some ((_peer, _name, channel_id), tracks') =>
    match alookup self.tracks_source channel_id with
    | none => none
    | some sources =>
      let removed := sswapRemove sources (endpoint, track)
      if removed.1 = false then none
      else if removed.2 = [] then
        match aswapRemove (ainsert self.tracks_source channel_id removed.2)
            channel_id with
        | none => none
        | some (_, ts') =>
          some { self with
              tracks := tracks'
              tracks_source := ts'
              queue := self.queue ++ [.Pubsub channel_id .PubStop] }
      else
        some { self with
            tracks := tracks'
            tracks_source := ainsert self.tracks_source channel_id removed.2 }

/-- `TaskSwitcherChild::is_empty` for the publisher. -/
def is_empty (self : RoomChannelPublisher E) : Bool :=
  self.tracks.isEmpty && self.tracks_source.isEmpty && self.queue.isEmpty

/-- `TaskSwitcherChild::empty_event` for the publisher. -/
def empty_event : MediaTrackOutput E := .OnResourceEmpty

/-- `TaskSwitcherChild::pop_output` for the publisher: pop the front of the
FIFO. -/
def pop_output (self : RoomChannelPublisher E) :
    Option (MediaTrackOutput E) × RoomChannelPublisher E :=
  match self.queue with
  | [] => (none, self)
  | o :: rest => (some o, { self with queue := rest })

/-- Popping every queued output via `pop_output` empties the queue and
touches nothing else. -/
def drainOutputs (self : RoomChannelPublisher E) : RoomChannelPublisher E :=
  { self with queue := [] }

theorem pop_output_drains (self : RoomChannelPublisher E) (o : MediaTrackOutput E)
    (rest : List (MediaTrackOutput E)) (h : self.queue = o :: rest) :
    self.pop_output = (some o, { self with queue := rest }) := by
  simp [pop_output, h]

end RoomChannelPublisher

/-- UTF-8 bytes of the peer id `peer1` used by the publisher tests. -/
def peer1Bytes : List Nat := [112, 101, 101, 114, 49]

/-- UTF-8 bytes of the track name `audio_main`. -/
def audioMainBytes : List Nat := [97, 117, 100, 105, 111, 95, 109, 97, 105, 110]

/-- The Opus test packet `fake_audio()` of `publisher.rs`. -/
def fakeAudio : MediaPacket :=
  { ts := 0, seq := 0, marker := true, nackable := false, layers := none
    meta := .Opus none, data := [1, 2, 3, 4] }

/-! ### Claims C3, C5, C6: publisher feedback and data paths -/

/-- C3.  After a publish of `(endpoint = 2, track = 3)` on channel `c`,
feedback built by `Feedback::simple(0, 1000, 100, 200)` (kind 0, value
1000, intervals 100 and 200) produces exactly the output
`Endpoint([2], RemoteTrack(3, LimitBitrate{min:1000, max:1000}))`, and
feedback of kind 1 produces exactly
`Endpoint([2], RemoteTrack(3, RequestKeyFrame))`: the whole publisher state
is unchanged except for that one appended output. -/
theorem C3_feedback_fanout :
    (let s1 := (RoomChannelPublisher.new 1 :
        RoomChannelPublisher Nat).on_track_publish 2 3 peer1Bytes audioMainBytes
     let c := gen_track_channel_id 1 peer1Bytes audioMainBytes
     s1.on_track_feedback c (Feedback.simple 0 1000 100 200) =
        { s1 with queue := s1.queue ++
            [.Endpoint [2] (.RemoteTrack 3 (.LimitBitrate 1000 1000))] } ∧
     s1.on_track_feedback c (Feedback.simple 1 1 100 200) =
        { s1 with queue := s1.queue ++
            [.Endpoint [2] (.RemoteTrack 3 .RequestKeyFrame)] }) := by
  decide

/-- C5.  Feedback whose kind is neither 0 nor 1 is discarded whole: the
publisher state (indexes and queue) is unchanged. -/
theorem C5_unknown_feedback_kind_ignored {E : Type} [DecidableEq E]
    (s : RoomChannelPublisher E) (c : Nat) (fb : Feedback)
    (h0 : fb.kind ≠ 0) (h1 : fb.kind ≠ 1) :
    s.on_track_feedback c fb = s := by
  rcases fb with ⟨k, v, mn, mx, ia, ib⟩
  cases k with
  | zero => exact absurd rfl h0
  | succ k =>
    cases k with
    | zero => exact absurd rfl h1
    | succ k => rfl

/-- Witness for `C5_unknown_feedback_kind_ignored` at kind 2. -/
theorem C5_unknown_feedback_kind_witness :
    ((Feedback.simple 2 7 100 200).kind ≠ 0 ∧ (Feedback.simple 2 7 100 200).kind ≠ 1) ∧
      (RoomChannelPublisher.new 1 : RoomChannelPublisher Nat).on_track_feedback 5
        (Feedback.simple 2 7 100 200) = RoomChannelPublisher.new 1 :=
  ⟨⟨by decide, by decide⟩,
    C5_unknown_feedback_kind_ignored (RoomChannelPublisher.new 1) 5
      (Feedback.simple 2 7 100 200) (by decide) (by decide)⟩

/-- C6.  `on_track_data` with a registered `(endpoint, track)` appends
exactly `Pubsub(channel, PubData(serialize(media)))` for the registered
channel and changes nothing else; with an unregistered pair the state is
unchanged (late media is a silent drop). -/
theorem C6_on_track_data {E : Type} [DecidableEq E]
    (s : RoomChannelPublisher E) (e : E) (t : Nat) (m : MediaPacket) :
    (∀ peer name c, alookup s.tracks (e, t) = some (peer, name, c) →
      s.on_track_data e t m =
        { s with queue := s.queue ++ [.Pubsub c (.PubData m.serialize)] }) ∧
    (alookup s.tracks (e, t) = none → s.on_track_data e t m = s) := by
  constructor
  · intro peer name c h
    simp [RoomChannelPublisher.on_track_data, h]
  · intro h
    simp [RoomChannelPublisher.on_track_data, h]

/-- Witness for `C6_on_track_data`: the registered case on the state after
one publish, the unregistered case on the fresh publisher. -/
theorem C6_on_track_data_witness :
    (let s1 := (RoomChannelPublisher.new 1 :
        RoomChannelPublisher Nat).on_track_publish 2 3 peer1Bytes audioMainBytes
     let c := gen_track_channel_id 1 peer1Bytes audioMainBytes
     alookup s1.tracks (2, 3) = some (peer1Bytes, audioMainBytes, c) ∧
     s1.on_track_data 2 3 fakeAudio =
       { s1 with queue := s1.queue ++ [.Pubsub c (.PubData fakeAudio.serialize)] } ∧
     alookup (RoomChannelPublisher.new 1 :
        RoomChannelPublisher Nat).tracks (2, 3) = none ∧
     (RoomChannelPublisher.new 1 :
        RoomChannelPublisher Nat).on_track_data 2 3 fakeAudio =
       RoomChannelPublisher.new 1) :=
  ⟨by decide,
   (C6_on_track_data _ 2 3 fakeAudio).1 peer1Bytes audioMainBytes
     (gen_track_channel_id 1 peer1Bytes audioMainBytes) (by decide),
   by decide,
   (C6_on_track_data (RoomChannelPublisher.new 1) 2 3 fakeAudio).2 (by decide)⟩

/-! ### Publisher event sequences (claims C2 and C9) -/

/-- A publish / unpublish input to the publisher. -/
inductive PubEv (E : Type)
  | publish (endpoint : E) (track : Nat) (peer name : List Nat)
  | unpublish (endpoint : E) (track : Nat)
deriving DecidableEq

/-- One publisher step; `none` models a panic (`expect` / `assert!`). -/
def pubStep {E : Type} [DecidableEq E] (s : RoomChannelPublisher E) :
    PubEv E → Option (RoomChannelPublisher E)
  | .publish e t p n => some (s.on_track_publish e t p n)
  | .unpublish e t => s.on_track_unpublish e t

/-- Run of a publisher event sequence. -/
def pubRun {E : Type} [DecidableEq E] (s : RoomChannelPublisher E) :
    List (PubEv E) → Option (RoomChannelPublisher E)
  | [] => some s
  | ev :: rest =>
    match pubStep s ev with
    | none => none
    | some s' => pubRun s' rest

/-- Source set of a channel (empty when the channel is absent). -/
def sourcesOf {E : Type} [DecidableEq E] (s : RoomChannelPublisher E) (c : Nat) :
    List (E × Nat) :=
  (alookup s.tracks_source c).getD []

/-- Invariant of reachable publisher states: every registered track belongs
to the source set of its channel, both indexes have distinct keys, and each
source set is duplicate-free. -/
structure PubInv {E : Type} [DecidableEq E] (s : RoomChannelPublisher E) : Prop where
  trackSrc : ∀ k pv, alookup s.tracks k = some pv → k ∈ sourcesOf s pv.2.2
  ndTracks : (akeys s.tracks).Nodup
  ndChannels : (akeys s.tracks_source).Nodup
  ndSources : ∀ c l, alookup s.tracks_source c = some l → l.Nodup

theorem pubInv_new {E : Type} [DecidableEq E] (room : Nat) :
    PubInv (RoomChannelPublisher.new (E := E) room) := by
  refine ⟨?_, ?_, ?_, ?_⟩ <;> simp [RoomChannelPublisher.new, alookup, akeys]

/-- Effect of `on_track_publish` on an invariant state: the invariant is
preserved, `PubStart` is emitted exactly when the channel's source set was
empty, the track is added to its channel's sources, and other channels are
untouched. -/
theorem publish_spec {E : Type} [DecidableEq E] (s : RoomChannelPublisher E)
    (hinv : PubInv s) (e : E) (t : Nat) (p n : List Nat) :
    PubInv (s.on_track_publish e t p n) ∧
    (s.on_track_publish e t p n).room = s.room ∧
    (s.on_track_publish e t p n).queue = s.queue ++
      (if sourcesOf s (gen_track_channel_id s.room p n) = [] then
        [.Pubsub (gen_track_channel_id s.room p n) .PubStart] else []) ∧
    sourcesOf (s.on_track_publish e t p n) (gen_track_channel_id s.room p n) =
      sinsert (sourcesOf s (gen_track_channel_id s.room p n)) (e, t) ∧
    (∀ c, c ≠ gen_track_channel_id s.room p n →
      sourcesOf (s.on_track_publish e t p n) c = sourcesOf s c) ∧
    (∀ k, alookup (s.on_track_publish e t p n).tracks k =
      if k = (e, t) then some (p, n, gen_track_channel_id s.room p n)
      else alookup s.tracks k) := by
  have hch : (s.on_track_publish e t p n).tracks_source =
      ainsert s.tracks_source (gen_track_channel_id s.room p n)
        (sinsert (sourcesOf s (gen_track_channel_id s.room p n)) (e, t)) := rfl
  have htr : (s.on_track_publish e t p n).tracks =
      ainsert s.tracks (e, t) (p, n, gen_track_channel_id s.room p n) := rfl
  have hsrcSelf : sourcesOf (s.on_track_publish e t p n)
      (gen_track_channel_id s.room p n) =
      sinsert (sourcesOf s (gen_track_channel_id s.room p n)) (e, t) := by
    simp [sourcesOf, hch, alookup_ainsert_self]
  have hsrcOther : ∀ c, c ≠ gen_track_channel_id s.room p n →
      sourcesOf (s.on_track_publish e t p n) c = sourcesOf s c := by
    intro c hc
    simp [sourcesOf, hch, alookup_ainsert_ne _ _ _ hc]
  have htrLookup : ∀ k, alookup (s.on_track_publish e t p n).tracks k =
      if k = (e, t) then some (p, n, gen_track_channel_id s.room p n)
      else alookup s.tracks k := by
    intro k
    by_cases hk : k = (e, t)
    · subst hk
      simp [htr, alookup_ainsert_self]
    · simp [htr, hk, alookup_ainsert_ne _ _ _ hk]
  have hq : (s.on_track_publish e t p n).queue = s.queue ++
      (if sourcesOf s (gen_track_channel_id s.room p n) = [] then
        [.Pubsub (gen_track_channel_id s.room p n) .PubStart] else []) := by
    show (if sourcesOf s (gen_track_channel_id s.room p n) = [] then
        s.queue ++ [.Pubsub (gen_track_channel_id s.room p n) .PubStart]
      else s.queue) = _
    by_cases h : sourcesOf s (gen_track_channel_id s.room p n) = [] <;> simp [h]
  refine ⟨?_, rfl, hq, hsrcSelf, hsrcOther, htrLookup⟩
  · refine ⟨?_, ?_, ?_, ?_⟩
    · intro k pv hpv
      rw [htrLookup k] at hpv
      by_cases hk : k = (e, t)
      · rw [if_pos hk] at hpv
        cases hpv
        rw [hk, hsrcSelf]
        exact mem_sinsert_iff.mpr (Or.inl rfl)
      · rw [if_neg hk] at hpv
        have hold := hinv.trackSrc k pv hpv
        by_cases hc : pv.2.2 = gen_track_channel_id s.room p n
        · rw [hc, hsrcSelf]
          exact mem_sinsert_iff.mpr (Or.inr (hc ▸ hold))
        · rw [hsrcOther _ hc]
          exact hold
    · rw [htr]
      exact akeys_ainsert_nodup hinv.ndTracks _ _
    · rw [hch]
      exact akeys_ainsert_nodup hinv.ndChannels _ _
    · intro c l hl
      rw [hch] at hl
      by_cases hc : c = gen_track_channel_id s.room p n
      · rw [hc, alookup_ainsert_self, Option.some.injEq] at hl
        subst hl
        refine sinsert_nodup ?_ _
        unfold sourcesOf
        cases hs : alookup s.tracks_source (gen_track_channel_id s.room p n) with
        | none => simp
        | some l0 => simpa using hinv.ndSources _ l0 hs
      · rw [alookup_ainsert_ne _ _ _ hc] at hl
        exact hinv.ndSources c l hl

/-- `on_track_unpublish` of an unregistered track is a no-op. -/
theorem unpublish_absent_spec {E : Type} [DecidableEq E]
    (s : RoomChannelPublisher E) (e : E) (t : Nat)
    (h : alookup s.tracks (e, t) = none) :
    s.on_track_unpublish e t = some s := by
  simp [RoomChannelPublisher.on_track_unpublish, aswapRemove, h]

/-- Effect of `on_track_unpublish` on an invariant state holding the track:
no panic, the invariant is preserved, the track leaves both indexes, and
`PubStop` is emitted exactly when its channel's source set becomes empty. -/
theorem unpublish_present_spec {E : Type} [DecidableEq E]
    (s : RoomChannelPublisher E) (hinv : PubInv s) (e : E) (t : Nat)
    (p n : List Nat) (ch : Nat)
    (h : alookup s.tracks (e, t) = some (p, n, ch)) :
    ∃ s', s.on_track_unpublish e t = some s' ∧
      PubInv s' ∧ s'.room = s.room ∧
      (∀ k, alookup s'.tracks k = if k = (e, t) then none else alookup s.tracks k) ∧
      sourcesOf s' ch = sswapRemoveGo (sourcesOf s ch) (e, t) ∧
      (∀ c, c ≠ ch → sourcesOf s' c = sourcesOf s c) ∧
      (∀ c, alookup s'.tracks_source c =
        if c = ch then
          (if sswapRemoveGo (sourcesOf s ch) (e, t) = [] then none
           else some (sswapRemoveGo (sourcesOf s ch) (e, t)))
        else alookup s.tracks_source c) ∧
      s'.queue = s.queue ++
        (if sswapRemoveGo (sourcesOf s ch) (e, t) = [] then
          [.Pubsub ch .PubStop] else []) := by
  have hmem : (e, t) ∈ sourcesOf s ch := by
    simpa using hinv.trackSrc (e, t) (p, n, ch) h
  cases hl : alookup s.tracks_source ch with
  | none =>
    exfalso
    rw [sourcesOf, hl] at hmem
    simp at hmem
  | some sources =>
  have hse : sourcesOf s ch = sources := by simp [sourcesOf, hl]
  have hndS : sources.Nodup := hinv.ndSources _ _ hl
  have hmemS : (e, t) ∈ sources := hse ▸ hmem
  have hndT := hinv.ndTracks
  have htl : ∀ k, alookup (aswapRemoveGo s.tracks (e, t)) k =
      if k = (e, t) then none else alookup s.tracks k :=
    fun k => alookup_aswapRemoveGo hndT (e, t) k
  have h1 : aswapRemove s.tracks (e, t) =
      some ((p, n, ch), aswapRemoveGo s.tracks (e, t)) := by
    simp [aswapRemove, h]
  have h2 : sswapRemove sources (e, t) = (true, sswapRemoveGo sources (e, t)) := by
    simp [sswapRemove, hmemS]
  by_cases hempty : sswapRemoveGo sources (e, t) = []
  · have h3 : aswapRemove (ainsert s.tracks_source ch ([] : List (E × Nat))) ch =
        some ([], aswapRemoveGo (ainsert s.tracks_source ch []) ch) := by
      simp [aswapRemove, alookup_ainsert_self]
    have hres : s.on_track_unpublish e t = some
        { s with
            tracks := aswapRemoveGo s.tracks (e, t)
            tracks_source := aswapRemoveGo (ainsert s.tracks_source ch []) ch
            queue := s.queue ++ [.Pubsub ch .PubStop] } := by
      simp only [RoomChannelPublisher.on_track_unpublish, h1, hl, h2, hempty, h3]
      simp
    have hts : ∀ c, alookup
        (aswapRemoveGo (ainsert s.tracks_source ch ([] : List (E × Nat))) ch) c =
        if c = ch then none else alookup s.tracks_source c := by
      intro c
      rw [alookup_aswapRemoveGo (akeys_ainsert_nodup hinv.ndChannels _ _) ch c]
      by_cases hc : c = ch
      · simp [hc]
      · simp [hc, alookup_ainsert_ne _ _ _ hc]
    refine ⟨_, hres, ?_, rfl, htl, ?_, ?_, ?_, ?_⟩
    · refine ⟨?_, ?_, ?_, ?_⟩
      · intro k pv hpv
        simp only [htl k] at hpv
        by_cases hk : k = (e, t)
        · rw [if_pos hk] at hpv
          cases hpv
        · rw [if_neg hk] at hpv
          have hold := hinv.trackSrc k pv hpv
          by_cases hc : pv.2.2 = ch
          · exfalso
            rw [hc, hse] at hold
            have : k ∈ sswapRemoveGo sources (e, t) :=
              (mem_sswapRemoveGo_iff hndS).mpr ⟨hold, hk⟩
            rw [hempty] at this
            simp at this
          · show k ∈ sourcesOf _ pv.2.2
            rw [sourcesOf, hts pv.2.2, if_neg hc]
            exact hold
      · exact akeys_aswapRemoveGo_nodup hndT _
      · exact akeys_aswapRemoveGo_nodup (akeys_ainsert_nodup hinv.ndChannels _ _) _
      · intro c l hcl
        simp only [hts c] at hcl
        by_cases hc : c = ch
        · rw [if_pos hc] at hcl
          cases hcl
        · rw [if_neg hc] at hcl
          exact hinv.ndSources c l hcl
    · show (alookup _ ch).getD [] = _
      rw [hts ch, if_pos rfl, hse]
      simp [hempty]
    · intro c hc
      show (alookup _ c).getD [] = _
      rw [hts c, if_neg hc]
      rfl
    · intro c
      rw [hse, if_pos hempty]
      exact hts c
    · rw [hse, if_pos hempty]
  · have hres : s.on_track_unpublish e t = some
        { s with
            tracks := aswapRemoveGo s.tracks (e, t)
            tracks_source := ainsert s.tracks_source ch (sswapRemoveGo sources (e, t)) } := by
      simp only [RoomChannelPublisher.on_track_unpublish, h1, hl, h2, hempty]
      simp
    have hts : ∀ c, alookup
        (ainsert s.tracks_source ch (sswapRemoveGo sources (e, t))) c =
        if c = ch then some (sswapRemoveGo sources (e, t))
        else alookup s.tracks_source c := by
      intro c
      by_cases hc : c = ch
      · simp [hc, alookup_ainsert_self]
      · simp [hc, alookup_ainsert_ne _ _ _ hc]
    refine ⟨_, hres, ?_, rfl, htl, ?_, ?_, ?_, ?_⟩
    · refine ⟨?_, ?_, ?_, ?_⟩
      · intro k pv hpv
        simp only [htl k] at hpv
        by_cases hk : k = (e, t)
        · rw [if_pos hk] at hpv
          cases hpv
        · rw [if_neg hk] at hpv
          have hold := hinv.trackSrc k pv hpv
          by_cases hc : pv.2.2 = ch
          · show k ∈ sourcesOf _ pv.2.2
            rw [sourcesOf, hts pv.2.2, if_pos hc]
            rw [hc, hse] at hold
            exact (mem_sswapRemoveGo_iff hndS).mpr ⟨hold, hk⟩
          · show k ∈ sourcesOf _ pv.2.2
            rw [sourcesOf, hts pv.2.2, if_neg hc]
            exact hold
      · exact akeys_aswapRemoveGo_nodup hndT _
      · exact akeys_ainsert_nodup hinv.ndChannels _ _
      · intro c l hcl
        simp only [hts c] at hcl
        by_cases hc : c = ch
        · rw [if_pos hc, Option.some.injEq] at hcl
          subst hcl
          exact sswapRemoveGo_nodup hndS _
        · rw [if_neg hc] at hcl
          exact hinv.ndSources c l hcl
    · show (alookup _ ch).getD [] = _
      rw [hts ch, if_pos rfl, hse]
      rfl
    · intro c hc
      show (alookup _ c).getD [] = _
      rw [hts c, if_neg hc]
      rfl
    · intro c
      rw [hse, if_neg hempty]
      exact hts c
    · rw [hse, if_neg hempty]
      simp

/-- Per-step pub/sub emission law on invariant states: the step succeeds,
appends some `outs` to the queue, and `PubStart` / `PubStop` for a channel
appear in `outs` exactly at the empty-to-non-empty / non-empty-to-empty
transition of that channel's source set. -/
theorem pubStep_spec {E : Type} [DecidableEq E] (s : RoomChannelPublisher E)
    (hinv : PubInv s) (ev : PubEv E) :
    ∃ s' outs, pubStep s ev = some s' ∧ PubInv s' ∧
      s'.queue = s.queue ++ outs ∧
      ∀ c, (MediaTrackOutput.Pubsub c .PubStart ∈ outs ↔
              (sourcesOf s c = [] ∧ sourcesOf s' c ≠ [])) ∧
           (MediaTrackOutput.Pubsub c .PubStop ∈ outs ↔
              (sourcesOf s c ≠ [] ∧ sourcesOf s' c = [])) := by
  cases ev with
  | publish e t p n =>
    obtain ⟨hinv', _, hq, hsrcSelf, hsrcOther, _⟩ := publish_spec s hinv e t p n
    refine ⟨s.on_track_publish e t p n, _, rfl, hinv', hq, ?_⟩
    intro c
    by_cases hc : c = gen_track_channel_id s.room p n
    · subst hc
      constructor
      · by_cases hcur : sourcesOf s (gen_track_channel_id s.room p n) = []
        · simp [hcur, hsrcSelf, sinsert_ne_nil]
        · simp [hcur]
      · by_cases hcur : sourcesOf s (gen_track_channel_id s.room p n) = []
        · simp [hcur, hsrcSelf, sinsert_ne_nil]
        · simp [hcur, hsrcSelf, sinsert_ne_nil]
    · have h1 := hsrcOther c hc
      constructor
      · rw [h1]
        by_cases hcur : sourcesOf s (gen_track_channel_id s.room p n) = [] <;>
          simp [hcur, hc]
      · rw [h1]
        by_cases hcur : sourcesOf s (gen_track_channel_id s.room p n) = [] <;>
          simp [hcur, hc]
  | unpublish e t =>
    cases htrk : alookup s.tracks (e, t) with
    | none =>
      have hres := unpublish_absent_spec s e t htrk
      refine ⟨s, [], by simp [pubStep, hres], hinv, by simp, ?_⟩
      intro c
      constructor
      · simp only [List.not_mem_nil, false_iff]
        rintro ⟨h1, h2⟩
        exact h2 h1
      · simp only [List.not_mem_nil, false_iff]
        rintro ⟨h1, h2⟩
        exact h1 h2
    | some pv =>
      obtain ⟨p, n, ch⟩ := pv
      obtain ⟨s', hres, hinv', _, _, hsrcSelf, hsrcOther, _, hq⟩ :=
        unpublish_present_spec s hinv e t p n ch htrk
      refine ⟨s', _, by simp [pubStep, hres], hinv', hq, ?_⟩
      have hchNe : sourcesOf s ch ≠ [] := by
        intro h0
        have hmem := hinv.trackSrc (e, t) (p, n, ch) htrk
        rw [show ((p, n, ch) : List Nat × List Nat × Nat).2.2 = ch from rfl, h0] at hmem
        simp at hmem
      intro c
      by_cases hc : c = ch
      · subst hc
        constructor
        · by_cases hend : sswapRemoveGo (sourcesOf s c) (e, t) = [] <;>
            simp [hend, hchNe]
        · by_cases hend : sswapRemoveGo (sourcesOf s c) (e, t) = [] <;>
            simp [hend, hchNe, hsrcSelf]
      · have h1 := hsrcOther c hc
        constructor
        · rw [h1]
          by_cases hend : sswapRemoveGo (sourcesOf s ch) (e, t) = [] <;>
            simp [hend, hc]
        · rw [h1]
          by_cases hend : sswapRemoveGo (sourcesOf s ch) (e, t) = [] <;>
            simp [hend, hc]

/-- Runs from invariant states never panic and preserve the invariant. -/
theorem pubRun_total {E : Type} [DecidableEq E] :
    ∀ (evs : List (PubEv E)) (s : RoomChannelPublisher E), PubInv s →
      ∃ s', pubRun s evs = some s' ∧ PubInv s' := by
  intro evs
  induction evs with
  | nil => exact fun s h => ⟨s, rfl, h⟩
  | cons ev rest ih =>
    intro s h
    obtain ⟨s1, outs, hstep, hinv1, _, _⟩ := pubStep_spec s h ev
    obtain ⟨s', hrun, hinv'⟩ := ih s1 hinv1
    exact ⟨s', by simp [pubRun, hstep, hrun], hinv'⟩

/-- C2.  Along every publish / unpublish sequence from a fresh publisher the
run never panics, and each further step appends outputs in which
`Pubsub(c, PubStart)` occurs exactly when channel `c`'s source set goes from
empty to non-empty and `Pubsub(c, PubStop)` exactly when it goes from
non-empty to empty; in particular two publishes of the same `(peer, name)`
from endpoints 1 and 2 followed by both unpublishes, in either order, yield
exactly one `PubStart` and exactly one `PubStop`. -/
theorem C2_pubstart_pubstop_transitions {E : Type} [DecidableEq E]
    (room : Nat) (evs : List (PubEv E)) (ev : PubEv E) (c : Nat) :
    (∃ s s' outs, pubRun (RoomChannelPublisher.new room) evs = some s ∧
      pubStep s ev = some s' ∧ s'.queue = s.queue ++ outs ∧
      (MediaTrackOutput.Pubsub c .PubStart ∈ outs ↔
        (sourcesOf s c = [] ∧ sourcesOf s' c ≠ [])) ∧
      (MediaTrackOutput.Pubsub c .PubStop ∈ outs ↔
        (sourcesOf s c ≠ [] ∧ sourcesOf s' c = []))) ∧
    (pubRun (RoomChannelPublisher.new 1 : RoomChannelPublisher Nat)
      [.publish 1 3 peer1Bytes audioMainBytes, .publish 2 3 peer1Bytes audioMainBytes,
       .unpublish 1 3, .unpublish 2 3]).map (fun sf =>
        (sf.queue.count
          (.Pubsub (gen_track_channel_id 1 peer1Bytes audioMainBytes) .PubStart),
         sf.queue.count
          (.Pubsub (gen_track_channel_id 1 peer1Bytes audioMainBytes) .PubStop))) =
      some (1, 1) ∧
    (pubRun (RoomChannelPublisher.new 1 : RoomChannelPublisher Nat)
      [.publish 1 3 peer1Bytes audioMainBytes, .publish 2 3 peer1Bytes audioMainBytes,
       .unpublish 2 3, .unpublish 1 3]).map (fun sf =>
        (sf.queue.count
          (.Pubsub (gen_track_channel_id 1 peer1Bytes audioMainBytes) .PubStart),
         sf.queue.count
          (.Pubsub (gen_track_channel_id 1 peer1Bytes audioMainBytes) .PubStop))) =
      some (1, 1) := by
  refine ⟨?_, by decide, by decide⟩
  obtain ⟨s, hrun, hinv⟩ := pubRun_total evs (RoomChannelPublisher.new room) (pubInv_new room)
  obtain ⟨s', outs, hstep, _, hq, hiff⟩ := pubStep_spec s hinv ev
  exact ⟨s, s', outs, hrun, hstep, hq, (hiff c).1, (hiff c).2⟩

/-! ### Claim C9: balanced sequences drain to an empty publisher -/

/-- Whether an event is the unpublish of `(e, t)`. -/
def isUnpubOf {E : Type} [DecidableEq E] (e : E) (t : Nat) : PubEv E → Bool
  | .unpublish e1 t1 => decide (e1 = e) && decide (t1 = t)
  | .publish _ _ _ _ => false

/-- Every publish in the sequence has a later unpublish of the same
`(endpoint, track)`. -/
def balancedB {E : Type} [DecidableEq E] : List (PubEv E) → Bool
  | [] => true
  | .publish e t _ _ :: rest => rest.any (isUnpubOf e t) && balancedB rest
  | .unpublish _ _ :: rest => balancedB rest

/-- One checked step: additionally fails when a publish re-registers a
currently registered `(endpoint, track)` (the amendment of C9). -/
def pubStepChecked {E : Type} [DecidableEq E] (s : RoomChannelPublisher E) :
    PubEv E → Option (RoomChannelPublisher E)
  | .publish e t p n =>
    if (alookup s.tracks (e, t)).isSome then none
    else some (s.on_track_publish e t p n)
  | .unpublish e t => s.on_track_unpublish e t

/-- Checked run of a publisher event sequence. -/
def pubRunChecked {E : Type} [DecidableEq E] (s : RoomChannelPublisher E) :
    List (PubEv E) → Option (RoomChannelPublisher E)
  | [] => some s
  | ev :: rest =>
    match pubStepChecked s ev with
    | none => none
    | some s' => pubRunChecked s' rest

/-- Invariant of checked runs: in addition to `PubInv`, every source-set
member is a registered track of exactly that channel, and no stored source
set is empty. -/
structure PubInvF {E : Type} [DecidableEq E] (s : RoomChannelPublisher E)
    extends PubInv s : Prop where
  srcTrack2 : ∀ c k, k ∈ sourcesOf s c → ∃ p n, alookup s.tracks k = some (p, n, c)
  srcNonempty : ∀ c l, alookup s.tracks_source c = some l → l ≠ []

theorem pubInvF_new {E : Type} [DecidableEq E] (room : Nat) :
    PubInvF (RoomChannelPublisher.new (E := E) room) := by
  refine ⟨pubInv_new room, ?_, ?_⟩ <;>
    simp [RoomChannelPublisher.new, alookup, sourcesOf]

theorem sourcesOf_nodup {E : Type} [DecidableEq E] {s : RoomChannelPublisher E}
    (hinv : PubInv s) (c : Nat) : (sourcesOf s c).Nodup := by
  unfold sourcesOf
  cases hl : alookup s.tracks_source c with
  | none => simp
  | some l => simpa using hinv.ndSources c l hl

/-- A checked publish (fresh key) preserves the strengthened invariant. -/
theorem publishChecked_invF {E : Type} [DecidableEq E] (s : RoomChannelPublisher E)
    (hinv : PubInvF s) (e : E) (t : Nat) (p n : List Nat)
    (hfree : alookup s.tracks (e, t) = none) :
    PubInvF (s.on_track_publish e t p n) := by
  obtain ⟨hinv', _, _, hsrcSelf, hsrcOther, htrLookup⟩ :=
    publish_spec s hinv.toPubInv e t p n
  have hch : (s.on_track_publish e t p n).tracks_source =
      ainsert s.tracks_source (gen_track_channel_id s.room p n)
        (sinsert (sourcesOf s (gen_track_channel_id s.room p n)) (e, t)) := rfl
  refine ⟨hinv', ?_, ?_⟩
  · intro c k hk
    by_cases hc : c = gen_track_channel_id s.room p n
    · subst hc
      rw [hsrcSelf] at hk
      rcases mem_sinsert_iff.mp hk with rfl | hk2
      · exact ⟨p, n, by rw [htrLookup, if_pos rfl]⟩
      · obtain ⟨p1, n1, hold⟩ := hinv.srcTrack2 _ k hk2
        have hkne : k ≠ (e, t) := by
          intro he
          rw [he, hfree] at hold
          cases hold
        exact ⟨p1, n1, by rw [htrLookup, if_neg hkne]; exact hold⟩
    · rw [hsrcOther c hc] at hk
      obtain ⟨p1, n1, hold⟩ := hinv.srcTrack2 c k hk
      have hkne : k ≠ (e, t) := by
        intro he
        rw [he, hfree] at hold
        cases hold
      exact ⟨p1, n1, by rw [htrLookup, if_neg hkne]; exact hold⟩
  · intro c l hcl
    rw [hch] at hcl
    by_cases hc : c = gen_track_channel_id s.room p n
    · rw [hc, alookup_ainsert_self, Option.some.injEq] at hcl
      rw [← hcl]
      exact sinsert_ne_nil _ _
    · rw [alookup_ainsert_ne _ _ _ hc] at hcl
      exact hinv.srcNonempty c l hcl

/-- Any successful unpublish preserves the strengthened invariant. -/
theorem unpublish_invF {E : Type} [DecidableEq E] (s : RoomChannelPublisher E)
    (hinv : PubInvF s) (e : E) (t : Nat) (s' : RoomChannelPublisher E)
    (hres : s.on_track_unpublish e t = some s') : PubInvF s' := by
  cases htrk : alookup s.tracks (e, t) with
  | none =>
    rw [unpublish_absent_spec s e t htrk, Option.some.injEq] at hres
    exact hres ▸ hinv
  | some pv =>
    obtain ⟨p, n, ch⟩ := pv
    obtain ⟨s1, hres1, hinv1, _, htl, hsrcSelf, hsrcOther, hts, _⟩ :=
      unpublish_present_spec s hinv.toPubInv e t p n ch htrk
    rw [hres1, Option.some.injEq] at hres
    subst hres
    refine ⟨hinv1, ?_, ?_⟩
    · intro c k hk
      by_cases hc : c = ch
      · subst hc
        rw [hsrcSelf] at hk
        obtain ⟨hk1, hk2⟩ :=
          (mem_sswapRemoveGo_iff (sourcesOf_nodup hinv.toPubInv c)).mp hk
        obtain ⟨p1, n1, hold⟩ := hinv.srcTrack2 c k hk1
        exact ⟨p1, n1, by rw [htl, if_neg hk2]; exact hold⟩
      · rw [hsrcOther c hc] at hk
        obtain ⟨p1, n1, hold⟩ := hinv.srcTrack2 c k hk
        have hkne : k ≠ (e, t) := by
          intro he
          rw [he, htrk, Option.some.injEq] at hold
          exact hc (congrArg (fun q => q.2.2) hold.symm)
        exact ⟨p1, n1, by rw [htl, if_neg hkne]; exact hold⟩
    · intro c l hcl
      rw [hts c] at hcl
      by_cases hc : c = ch
      · rw [if_pos hc] at hcl
        by_cases hend : sswapRemoveGo (sourcesOf s ch) (e, t) = []
        · rw [if_pos hend] at hcl
          cases hcl
        · rw [if_neg hend, Option.some.injEq] at hcl
          rw [← hcl]
          exact hend
      · rw [if_neg hc] at hcl
        exact hinv.srcNonempty c l hcl

/-- A pending unpublish of `(e1, t1)` survives past a head unpublish of a
different key. -/
theorem any_cons_unpub {E : Type} [DecidableEq E] {e : E} {t : Nat} {e1 : E}
    {t1 : Nat} {rest : List (PubEv E)} (hne : (e1, t1) ≠ ((e, t) : E × Nat))
    (hany : (PubEv.unpublish e t :: rest).any (isUnpubOf e1 t1) = true) :
    rest.any (isUnpubOf e1 t1) = true := by
  rw [List.any_cons, Bool.or_eq_true] at hany
  rcases hany with h | h
  · exfalso
    have h2 : e = e1 ∧ t = t1 := by simpa [isUnpubOf] using h
    exact hne (by simp [h2.1, h2.2])
  · exact h

theorem any_cons_pub {E : Type} [DecidableEq E] {e2 : E} {t2 : Nat}
    {p n : List Nat} {e1 : E} {t1 : Nat} {rest : List (PubEv E)}
    (hany : (PubEv.publish e2 t2 p n :: rest).any (isUnpubOf e1 t1) = true) :
    rest.any (isUnpubOf e1 t1) = true := by
  simpa [List.any_cons, isUnpubOf] using hany

/-- A balanced checked run from an invariant state, all of whose registered
tracks still have a pending unpublish, ends with an empty track index. -/
theorem runChecked_tracks_empty {E : Type} [DecidableEq E] :
    ∀ (evs : List (PubEv E)) (s : RoomChannelPublisher E), PubInvF s →
      balancedB evs = true →
      (∀ e t, (alookup s.tracks (e, t)).isSome = true →
        evs.any (isUnpubOf e t) = true) →
      ∀ s', pubRunChecked s evs = some s' → s'.tracks = [] ∧ PubInvF s' := by
  intro evs
  induction evs with
  | nil =>
    intro s hinv _ hact s' hrun
    rw [pubRunChecked, Option.some.injEq] at hrun
    subst hrun
    refine ⟨?_, hinv⟩
    cases hq : s.tracks with
    | nil => rfl
    | cons q rest =>
      exfalso
      have hlk : (alookup s.tracks (q.1.1, q.1.2)).isSome = true := by
        rw [hq]
        simp [alookup]
      have := hact q.1.1 q.1.2 hlk
      simp at this
  | cons ev rest ih =>
    intro s hinv hbal hact s' hrun
    rw [pubRunChecked] at hrun
    cases hstep : pubStepChecked s ev with
    | none =>
      rw [hstep] at hrun
      cases hrun
    | some s1 =>
      rw [hstep] at hrun
      cases ev with
      | publish e t p n =>
        by_cases hfree : (alookup s.tracks (e, t)).isSome = true
        · rw [pubStepChecked, if_pos hfree] at hstep
          cases hstep
        · have hfree' : alookup s.tracks (e, t) = none := by
            cases halt : alookup s.tracks (e, t)
            · rfl
            · rw [halt] at hfree
              simp at hfree
          rw [pubStepChecked, if_neg hfree] at hstep
          have hinj := Option.some.inj hstep
          have hinv1 : PubInvF s1 := hinj ▸ publishChecked_invF s hinv e t p n hfree'
          have hbal2 := hbal
          rw [balancedB, Bool.and_eq_true] at hbal2
          have hact' : ∀ e1 t1, (alookup s1.tracks (e1, t1)).isSome = true →
              rest.any (isUnpubOf e1 t1) = true := by
            intro e1 t1 h1
            obtain ⟨_, _, _, _, _, htrLookup⟩ := publish_spec s hinv.toPubInv e t p n
            rw [← hinj, htrLookup] at h1
            by_cases hk : ((e1, t1) : E × Nat) = (e, t)
            · have he : e1 = e := congrArg Prod.fst hk
              have ht : t1 = t := congrArg Prod.snd hk
              rw [he, ht]
              exact hbal2.1
            · rw [if_neg hk] at h1
              exact any_cons_pub (hact e1 t1 h1)
          exact ih s1 hinv1 hbal2.2 hact' s' hrun
      | unpublish e t =>
        rw [pubStepChecked] at hstep
        have hinv1 : PubInvF s1 := unpublish_invF s hinv e t s1 hstep
        have hbal' : balancedB rest = true := by
          rw [balancedB] at hbal
          exact hbal
        have hact' : ∀ e1 t1, (alookup s1.tracks (e1, t1)).isSome = true →
            rest.any (isUnpubOf e1 t1) = true := by
          intro e1 t1 h1
          cases htrk : alookup s.tracks (e, t) with
          | none =>
            have heq : s = s1 := by
              rw [unpublish_absent_spec s e t htrk] at hstep
              exact Option.some.inj hstep
            rw [← heq] at h1
            have hne : ((e1, t1) : E × Nat) ≠ (e, t) := by
              intro hk
              rw [hk, htrk] at h1
              simp at h1
            exact any_cons_unpub hne (hact e1 t1 h1)
          | some pv =>
            obtain ⟨p, n, ch⟩ := pv
            obtain ⟨s2, hres1, _, _, htl, _, _, _, _⟩ :=
              unpublish_present_spec s hinv.toPubInv e t p n ch htrk
            rw [hres1] at hstep
            have heq := Option.some.inj hstep
            rw [← heq, htl] at h1
            by_cases hk : ((e1, t1) : E × Nat) = (e, t)
            · rw [if_pos hk] at h1
              simp at h1
            · rw [if_neg hk] at h1
              exact any_cons_unpub hk (hact e1 t1 h1)
        exact ih s1 hinv1 hbal' hact' s' hrun

/-- With no tracks left, the strengthened invariant forces the channel
index to be empty as well. -/
theorem tracks_source_empty_of_tracks_empty {E : Type} [DecidableEq E]
    (s : RoomChannelPublisher E) (hinv : PubInvF s) (h : s.tracks = []) :
    s.tracks_source = [] := by
  cases hts : s.tracks_source with
  | nil => rfl
  | cons q rest =>
    exfalso
    have hlk : alookup s.tracks_source q.1 = some q.2 := by
      rw [hts]
      simp [alookup]
    have hne := hinv.srcNonempty q.1 q.2 hlk
    obtain ⟨k, hk⟩ := List.exists_mem_of_ne_nil q.2 hne
    have hsrc : k ∈ sourcesOf s q.1 := by
      rw [sourcesOf, hlk]
      exact hk
    obtain ⟨p, n, hold⟩ := hinv.srcTrack2 q.1 k hsrc
    rw [h] at hold
    cases hold

/-- UTF-8 bytes of the track name `video_main`. -/
def videoMainBytes : List Nat := [118, 105, 100, 101, 111, 95, 109, 97, 105, 110]

/-- C9, counterexample.  The claim quantifies over every sequence in which
each publish has a later unpublish of the same `(endpoint, track)`.  The
sequence below re-registers `(1, 3)` under a different track name while it
is still registered; both publishes are matched by later unpublishes
(`balancedB` holds), the run panics nowhere and all outputs are drained,
yet the channel-source index keeps the stale entry of the first channel:
`is_empty` is false and the `tracks_source` drop assertion would fire. -/
theorem C9_overlapping_publish_counterexample :
    balancedB [PubEv.publish (1 : Nat) 3 peer1Bytes audioMainBytes,
       .publish 1 3 peer1Bytes videoMainBytes, .unpublish 1 3, .unpublish 1 3] = true ∧
    (pubRun (RoomChannelPublisher.new 1 : RoomChannelPublisher Nat)
       [.publish 1 3 peer1Bytes audioMainBytes,
        .publish 1 3 peer1Bytes videoMainBytes, .unpublish 1 3, .unpublish 1 3]).map
      (fun sf => ((RoomChannelPublisher.drainOutputs sf).is_empty,
         sf.tracks.isEmpty, sf.tracks_source.isEmpty)) =
      some (false, true, false) := by
  exact ⟨by decide, by decide⟩

/-- C9 (amended).  For sequences in which every publish is matched by a
later unpublish of the same `(endpoint, track)` **and no publish
re-registers a currently registered `(endpoint, track)`** (the checked
run), draining the outputs leaves the track index, the channel-source index
and the queue all empty, so the drop assertions cannot fire. -/
theorem C9_balanced_run_leaves_empty {E : Type} [DecidableEq E] (room : Nat)
    (evs : List (PubEv E)) (s' : RoomChannelPublisher E)
    (hbal : balancedB evs = true)
    (hrun : pubRunChecked (RoomChannelPublisher.new room) evs = some s') :
    s'.tracks = [] ∧ s'.tracks_source = [] ∧
      (RoomChannelPublisher.drainOutputs s').is_empty = true := by
  have hact : ∀ e t,
      (alookup (RoomChannelPublisher.new (E := E) room).tracks (e, t)).isSome = true →
      evs.any (isUnpubOf e t) = true := by
    intro e t h
    simp [RoomChannelPublisher.new, alookup] at h
  obtain ⟨htr, hinvF⟩ :=
    runChecked_tracks_empty evs (RoomChannelPublisher.new room) (pubInvF_new room)
      hbal hact s' hrun
  have hts := tracks_source_empty_of_tracks_empty s' hinvF htr
  refine ⟨htr, hts, ?_⟩
  simp [RoomChannelPublisher.drainOutputs, RoomChannelPublisher.is_empty, htr, hts]

/-- Witness for `C9_balanced_run_leaves_empty`: one publish and its
unpublish, run to the concrete final state. -/
theorem C9_balanced_run_witness :
    (balancedB [PubEv.publish (1 : Nat) 3 peer1Bytes audioMainBytes, .unpublish 1 3] = true ∧
     pubRunChecked (RoomChannelPublisher.new 1 : RoomChannelPublisher Nat)
       [.publish 1 3 peer1Bytes audioMainBytes, .unpublish 1 3] =
      some ⟨1, [], [],
        [.Pubsub (gen_track_channel_id 1 peer1Bytes audioMainBytes) .PubStart,
         .Pubsub (gen_track_channel_id 1 peer1Bytes audioMainBytes) .PubStop]⟩) ∧
    (RoomChannelPublisher.tracks (E := Nat) ⟨1, [], [],
        [.Pubsub (gen_track_channel_id 1 peer1Bytes audioMainBytes) .PubStart,
         .Pubsub (gen_track_channel_id 1 peer1Bytes audioMainBytes) .PubStop]⟩ = [] ∧
     RoomChannelPublisher.tracks_source (E := Nat) ⟨1, [], [],
        [.Pubsub (gen_track_channel_id 1 peer1Bytes audioMainBytes) .PubStart,
         .Pubsub (gen_track_channel_id 1 peer1Bytes audioMainBytes) .PubStop]⟩ = [] ∧
     (RoomChannelPublisher.drainOutputs (E := Nat) ⟨1, [], [],
        [.Pubsub (gen_track_channel_id 1 peer1Bytes audioMainBytes) .PubStart,
         .Pubsub (gen_track_channel_id 1 peer1Bytes audioMainBytes) .PubStop]⟩).is_empty
       = true) :=
  ⟨⟨by decide, by decide⟩,
    C9_balanced_run_leaves_empty 1
      [.publish 1 3 peer1Bytes audioMainBytes, .unpublish 1 3] _
      (by decide) (by decide)⟩

/-! ### Task-slot arenas

Modelled from the spec: the sans-io `TaskGroup` is an arena of task slots
(spec section 9: arena-with-indices); `add_task` reuses the first free slot
or appends, `remove_task` frees a slot, and indices of live tasks are
stable. -/

/-- Value of a slot. -/
def tgGet {τ : Type} : List (Option τ) → Nat → Option τ
  | [], _ => none
  | o :: _, 0 => o
  | _ :: rest, i + 1 => tgGet rest i

/-- Overwrite a slot (no-op out of range), as `List.set`. -/
def tgSet {τ : Type} : List (Option τ) → Nat → Option τ → List (Option τ)
  | [], _, _ => []
  | _ :: rest, 0, o => o :: rest
  | x :: rest, i + 1, o => x :: tgSet rest i o

/-- First free slot of the arena. -/
def tgFreeSlot {τ : Type} : List (Option τ) → Option Nat
  | [] => none
  | none :: _ => some 0
  | some _ :: rest => (tgFreeSlot rest).map (· + 1)

/-- `TaskGroup::add_task`: place the task in the first free slot, or append
a new slot; the returned index is the task's handle. -/
def tgAddTask {τ : Type} (g : List (Option τ)) (t : τ) : Nat × List (Option τ) :=
  match tgFreeSlot g with
  | some i => (i, tgSet g i (some t))
  | none => (g.length, g ++ [some t])

/-- `TaskGroup::remove_task`: free the slot. -/
def tgRemoveTask {τ : Type} (g : List (Option τ)) (i : Nat) : List (Option τ) :=
  tgSet g i none

/-- `TaskGroup::has_task`. -/
def tgHasTask {τ : Type} (g : List (Option τ)) (i : Nat) : Bool :=
  (tgGet g i).isSome

/-- `TaskGroup::tasks`: number of live tasks. -/
def tgTasks {τ : Type} : List (Option τ) → Nat
  | [] => 0
  | some _ :: rest => tgTasks rest + 1
  | none :: rest => tgTasks rest

/-- `TaskGroup::is_empty`: no live tasks remain. -/
def tgIsEmpty {τ : Type} (g : List (Option τ)) : Bool :=
  g.all Option.isNone

theorem tgGet_lt_length {τ : Type} : ∀ (g : List (Option τ)) (i : Nat) (r : τ),
    tgGet g i = some r → i < g.length := by
  intro g
  induction g with
  | nil => intro i r h; cases h
  | cons x rest ih =>
    intro i r h
    cases i with
    | zero => simp
    | succ i =>
      have := ih i r h
      simpa using Nat.succ_lt_succ this

theorem tgGet_tgSet_self {τ : Type} : ∀ (g : List (Option τ)) (i : Nat)
    (o : Option τ), i < g.length → tgGet (tgSet g i o) i = o := by
  intro g
  induction g with
  | nil => intro i o h; simp at h
  | cons x rest ih =>
    intro i o h
    cases i with
    | zero => rfl
    | succ i =>
      simp only [List.length_cons] at h
      exact ih i o (by omega)

theorem tgGet_tgSet_ne {τ : Type} : ∀ (g : List (Option τ)) (i j : Nat)
    (o : Option τ), i ≠ j → tgGet (tgSet g i o) j = tgGet g j := by
  intro g
  induction g with
  | nil => intro i j o _; cases i <;> rfl
  | cons x rest ih =>
    intro i j o hne
    cases i with
    | zero =>
      cases j with
      | zero => exact absurd rfl hne
      | succ j => rfl
    | succ i =>
      cases j with
      | zero => rfl
      | succ j => exact ih i j o (by omega)

theorem tgGet_append_self {τ : Type} : ∀ (g : List (Option τ)) (x : Option τ),
    tgGet (g ++ [x]) g.length = x := by
  intro g x
  induction g with
  | nil => rfl
  | cons y rest ih => simpa using ih

theorem tgGet_append_ne {τ : Type} : ∀ (g : List (Option τ)) (x : Option τ)
    (i : Nat), i ≠ g.length → tgGet (g ++ [x]) i = tgGet g i := by
  intro g
  induction g with
  | nil =>
    intro x i h
    cases i with
    | zero => exact absurd rfl h
    | succ i => cases i <;> rfl
  | cons y rest ih =>
    intro x i h
    cases i with
    | zero => rfl
    | succ i =>
      simp only [List.length_cons] at h
      exact ih x i (by omega)

theorem tgSet_length {τ : Type} : ∀ (g : List (Option τ)) (i : Nat)
    (o : Option τ), (tgSet g i o).length = g.length := by
  intro g
  induction g with
  | nil => intro i o; rfl
  | cons x rest ih =>
    intro i o
    cases i with
    | zero => rfl
    | succ i =>
      show (x :: tgSet rest i o).length = (x :: rest).length
      simp [ih i o]

theorem tgFreeSlot_spec {τ : Type} : ∀ (g : List (Option τ)) (i : Nat),
    tgFreeSlot g = some i → tgGet g i = none ∧ i < g.length := by
  intro g
  induction g with
  | nil => intro i h; cases h
  | cons x rest ih =>
    intro i h
    cases x with
    | none =>
      cases h
      exact ⟨rfl, by simp⟩
    | some t =>
      simp only [tgFreeSlot, Option.map_eq_some'] at h
      obtain ⟨j, hj, rfl⟩ := h
      obtain ⟨h1, h2⟩ := ih j hj
      exact ⟨h1, by simpa using Nat.succ_lt_succ h2⟩

theorem tgIsEmpty_iff {τ : Type} (g : List (Option τ)) :
    tgIsEmpty g = true ↔ ∀ o ∈ g, o = none := by
  unfold tgIsEmpty
  rw [List.all_eq_true]
  constructor
  · intro h o ho
    have := h o ho
    cases o
    · rfl
    · cases this
  · intro h o ho
    rw [h o ho]
    rfl

/-! ### The cluster engine (`MediaCluster`, claims C7 and C10) -/

/-- Room-level outputs as seen by the cluster engine (`room::Output`): sdn
controls with their `RoomUserData`, endpoint events, and the room's
resource-empty event; sdn and endpoint payloads are abstracted to numeric
codes, and a faithful room emits `OnResourceEmpty` carrying its own hash
(the cluster reads the stored hash of the emitting room). -/
inductive RoomOut (E : Type)
  | Sdn (userdata : Nat × Nat) (control : Nat)
  | Endpoint (endpoints : List E) (event : Nat)
  | OnResourceEmpty
deriving DecidableEq

/-- Modelled from the spec: a room task of the cluster engine.
`ClusterRoom` (`room.rs` is not among the provided sources) is abstracted
to its hash — fixed at construction, `ClusterRoom::new(room_hash)` — and a
FIFO of pending outputs. -/
structure ClusterRoomM (E : Type) where
  hash : Nat
  outs : List (RoomOut E)
deriving DecidableEq

/-- `ClusterRoom::new(room_hash)`. -/
def ClusterRoomM.new {E : Type} (h : Nat) : ClusterRoomM E := ⟨h, []⟩

/-- Inputs the cluster engine forwards to a room task. -/
inductive RoomIn (E : Type)
  | Sdn (userdata : Nat × Nat) (event : Nat)
  | Endpoint (endpoint : E) (control : Nat)
  | Tick
  | Shutdown
deriving DecidableEq

/-- The room's input handling, kept abstract: any handler that never
changes the room's hash (the hash is set at construction only). -/
def RoomStep (E : Type) := ClusterRoomM E → RoomIn E → ClusterRoomM E

/-- `MediaCluster`: the room-hash map, the room task group and the
shutdown flag. -/
structure MediaClusterM (E : Type) where
  rooms_map : List (Nat × Nat)
  rooms : List (Option (ClusterRoomM E))
  shutdown : Bool
deriving DecidableEq

/-- `MediaCluster::default()`. -/
def MediaClusterM.default {E : Type} : MediaClusterM E := ⟨[], [], false⟩

/-- Dispatch an input to the task at a slot (live tasks only). -/
def tgOnEvent {E : Type} (rs : RoomStep E) (g : List (Option (ClusterRoomM E)))
    (i : Nat) (inp : RoomIn E) : List (Option (ClusterRoomM E)) :=
  match tgGet g i with
  | none => g
  | some r => tgSet g i (some (rs r inp))

/-- Forward an input to every live task (`on_tick` / `on_shutdown`). -/
def tgBroadcast {E : Type} (rs : RoomStep E) (g : List (Option (ClusterRoomM E)))
    (inp : RoomIn E) : List (Option (ClusterRoomM E)) :=
  g.map (Option.map (fun r => rs r inp))

/-- `MediaCluster::on_tick`: forwarded to every room. -/
def MediaClusterM.on_tick {E : Type} (rs : RoomStep E) (c : MediaClusterM E) :
    MediaClusterM E :=
  { c with rooms := tgBroadcast rs c.rooms .Tick }

/-- `MediaCluster::on_sdn_event`: look the room up by the userdata's room
hash; unknown rooms are dropped. -/
def MediaClusterM.on_sdn_event {E : Type} [DecidableEq E] (rs : RoomStep E)
    (c : MediaClusterM E) (userdata : Nat × Nat) (event : Nat) : MediaClusterM E :=
  match alookup c.rooms_map userdata.1 with
  | none => c
  | some i => { c with rooms := tgOnEvent rs c.rooms i (.Sdn userdata event) }

/-- `MediaCluster::on_endpoint_control`: dispatch to the room, creating the
room task and its map entry when the hash is unknown. -/
def MediaClusterM.on_endpoint_control {E : Type} [DecidableEq E] (rs : RoomStep E)
    (c : MediaClusterM E) (endpoint : E) (room_hash : Nat) (control : Nat) :
    MediaClusterM E :=
  match alookup c.rooms_map room_hash with
  | some i => { c with rooms := tgOnEvent rs c.rooms i (.Endpoint endpoint control) }
  | none =>
    let added := tgAddTask c.rooms (ClusterRoomM.new room_hash)
    { c with
        rooms_map := ainsert c.rooms_map room_hash added.1
        rooms := tgOnEvent rs added.2 added.1 (.Endpoint endpoint control) }

/-- `MediaCluster::shutdown`: idempotent; broadcasts shutdown once and sets
the flag. -/
def MediaClusterM.on_shutdown {E : Type} (rs : RoomStep E) (c : MediaClusterM E) :
    MediaClusterM E :=
  if c.shutdown then c
  else { c with rooms := tgBroadcast rs c.rooms .Shutdown, shutdown := true }

/-- `cluster::Output` as yielded by `pop_output`. -/
inductive ClusterOut (E : Type)
  | Sdn (userdata : Nat × Nat) (control : Nat)
  | Endpoint (endpoints : List E) (event : Nat)
  | OnResourceEmpty
  | Continue
deriving DecidableEq

/-- Result of one `pop_output` poll: an output with the successor state,
idleness, or the panic of the `expect` on the rooms map. -/
inductive ClusterPop (E : Type)
  | out (o : ClusterOut E) (c : MediaClusterM E)
  | idle
  | panic
deriving DecidableEq

/-- Index of the first slot holding a room with pending output. -/
def tgFirstBusy {E : Type} : List (Option (ClusterRoomM E)) → Option Nat
  | [] => none
  | some r :: rest =>
    if r.outs.isEmpty then (tgFirstBusy rest).map (· + 1) else some 0
  | none :: rest => (tgFirstBusy rest).map (· + 1)

theorem tgFirstBusy_spec {E : Type} : ∀ (g : List (Option (ClusterRoomM E)))
    (i : Nat), tgFirstBusy g = some i →
    ∃ r, tgGet g i = some r ∧ r.outs ≠ [] := by
  intro g
  induction g with
  | nil => intro i h; cases h
  | cons x rest ih =>
    intro i h
    cases x with
    | none =>
      simp only [tgFirstBusy, Option.map_eq_some'] at h
      obtain ⟨j, hj, rfl⟩ := h
      exact ih j hj
    | some r =>
      by_cases hq : r.outs.isEmpty
      · simp only [tgFirstBusy, if_pos hq, Option.map_eq_some'] at h
        obtain ⟨j, hj, rfl⟩ := h
        exact ih j hj
      · simp only [tgFirstBusy, if_neg hq] at h
        cases h
        refine ⟨r, rfl, ?_⟩
        intro h0
        rw [h0] at hq
        exact hq rfl

/-- `MediaCluster::pop_output`: poll the first busy room; `Sdn` and
`Endpoint` outputs are translated, a room's `OnResourceEmpty` removes both
the map entry (an `expect`, modelled as `panic` when absent) and the task,
yielding `Continue`. -/
def MediaClusterM.pop_output {E : Type} [DecidableEq E] (c : MediaClusterM E) :
    ClusterPop E :=
  match tgFirstBusy c.rooms with
  | none => .idle
  | some i =>
    match tgGet c.rooms i with
    | none => .idle
    | some r =>
      match r.outs with
      | [] => .idle
      | o :: rest =>
        let rooms1 := tgSet c.rooms i (some { r with outs := rest })
        match o with
        | .Sdn ud ctl => .out (.Sdn ud ctl) { c with rooms := rooms1 }
        | .Endpoint es ev => .out (.Endpoint es ev) { c with rooms := rooms1 }
        | .OnResourceEmpty =>
          match aswapRemove c.rooms_map r.hash with
          | none => .panic
          | some pr =>
            .out .Continue { c with rooms_map := pr.2, rooms := tgRemoveTask rooms1 i }

/-- `TaskSwitcherChild::is_empty` for the cluster: shut down and no rooms
remain. -/
def MediaClusterM.is_empty {E : Type} (c : MediaClusterM E) : Bool :=
  c.shutdown && tgIsEmpty c.rooms

/-- `TaskSwitcherChild::empty_event` for the cluster. -/
def MediaClusterM.empty_event {E : Type} : ClusterOut E := .OnResourceEmpty

/-- C7.  `is_empty` holds exactly when shutdown has been requested and no
room tasks remain; an empty cluster's empty event is `OnResourceEmpty`;
before shutdown is requested `is_empty` is false even with zero rooms; and
the `shutdown` operation sets the flag. -/
theorem C7_cluster_empty_semantics {E : Type} (c : MediaClusterM E)
    (rs : RoomStep E) :
    (MediaClusterM.is_empty c = true ↔
      (c.shutdown = true ∧ ∀ slot ∈ c.rooms, slot = none)) ∧
    (MediaClusterM.empty_event (E := E) = ClusterOut.OnResourceEmpty) ∧
    (c.shutdown = false → MediaClusterM.is_empty c = false) ∧
    (MediaClusterM.on_shutdown rs c).shutdown = true := by
  refine ⟨?_, rfl, ?_, ?_⟩
  · unfold MediaClusterM.is_empty
    rw [Bool.and_eq_true, tgIsEmpty_iff]
  · intro h
    unfold MediaClusterM.is_empty
    rw [h]
    rfl
  · unfold MediaClusterM.on_shutdown
    by_cases h : c.shutdown
    · rw [if_pos h]
      exact h
    · rw [if_neg h]

/-- Witness for `C7_cluster_empty_semantics` on the default cluster (no
rooms, not shut down) with the identity room handler. -/
theorem C7_cluster_empty_witness :
    (MediaClusterM.is_empty (MediaClusterM.default (E := Nat)) = true ↔
      ((MediaClusterM.default (E := Nat)).shutdown = true ∧
        ∀ slot ∈ (MediaClusterM.default (E := Nat)).rooms, slot = none)) ∧
    (MediaClusterM.empty_event (E := Nat) = ClusterOut.OnResourceEmpty) ∧
    ((MediaClusterM.default (E := Nat)).shutdown = false →
      MediaClusterM.is_empty (MediaClusterM.default (E := Nat)) = false) ∧
    (MediaClusterM.on_shutdown (fun r _ => r) (MediaClusterM.default (E := Nat))).shutdown
      = true :=
  C7_cluster_empty_semantics MediaClusterM.default (fun r _ => r)

/-! ### Claim C10: rooms-map / task-group coherence -/

/-- The coherence invariant between the hash map and the room arena:
every map entry points at a live room task carrying that hash, every live
room task is indexed by its map entry, and the map keys are
duplicate-free. -/
def ClusterInv {E : Type} [DecidableEq E] (m : List (Nat × Nat))
    (g : List (Option (ClusterRoomM E))) : Prop :=
  (∀ h i, alookup m h = some i → ∃ r, tgGet g i = some r ∧ r.hash = h) ∧
  (∀ i r, tgGet g i = some r → alookup m r.hash = some i) ∧
  (akeys m).Nodup

theorem tgGet_broadcast {E : Type} (rs : RoomStep E)
    (g : List (Option (ClusterRoomM E))) (inp : RoomIn E) :
    ∀ i, tgGet (tgBroadcast rs g inp) i = (tgGet g i).map (fun r => rs r inp) := by
  induction g with
  | nil => intro i; cases i <;> rfl
  | cons x rest ih =>
    intro i
    cases i with
    | zero => cases x <;> rfl
    | succ i => exact ih i

theorem tgGet_onEvent {E : Type} (rs : RoomStep E)
    (g : List (Option (ClusterRoomM E))) (j : Nat) (inp : RoomIn E) (i : Nat) :
    tgGet (tgOnEvent rs g j inp) i =
      if i = j then (tgGet g j).map (fun r => rs r inp) else tgGet g i := by
  unfold tgOnEvent
  cases hj : tgGet g j with
  | none =>
    by_cases hij : i = j <;> simp [hij, hj]
  | some r =>
    by_cases hij : i = j
    · subst hij
      rw [if_pos rfl, tgGet_tgSet_self g i _ (tgGet_lt_length g i r hj)]
      rfl
    · rw [if_neg hij]
      exact tgGet_tgSet_ne g j i _ (fun he => hij he.symm)

/-- A change of room contents that keeps liveness and hashes of every slot
preserves the coherence invariant. -/
theorem clusterInv_content {E : Type} [DecidableEq E] {m : List (Nat × Nat)}
    {g g' : List (Option (ClusterRoomM E))} (hinv : ClusterInv m g)
    (hsome : ∀ i r', tgGet g' i = some r' →
      ∃ r, tgGet g i = some r ∧ r'.hash = r.hash)
    (hnone : ∀ i r, tgGet g i = some r →
      ∃ r', tgGet g' i = some r' ∧ r'.hash = r.hash) :
    ClusterInv m g' := by
  obtain ⟨h1, h2, h3⟩ := hinv
  refine ⟨?_, ?_, h3⟩
  · intro h i hl
    obtain ⟨r, hr, hh⟩ := h1 h i hl
    obtain ⟨r', hr', hh'⟩ := hnone i r hr
    exact ⟨r', hr', by rw [hh', hh]⟩
  · intro i r' hr'
    obtain ⟨r, hr, hh⟩ := hsome i r' hr'
    rw [hh]
    exact h2 i r hr

theorem clusterInv_broadcast {E : Type} [DecidableEq E] {m : List (Nat × Nat)}
    {g : List (Option (ClusterRoomM E))} (hinv : ClusterInv m g)
    (rs : RoomStep E) (hpres : ∀ r inp, (rs r inp).hash = r.hash)
    (inp : RoomIn E) : ClusterInv m (tgBroadcast rs g inp) := by
  refine clusterInv_content hinv ?_ ?_
  · intro i r' hr'
    rw [tgGet_broadcast] at hr'
    cases hg : tgGet g i with
    | none => rw [hg] at hr'; cases hr'
    | some r =>
      rw [hg] at hr'
      cases hr'
      exact ⟨r, rfl, hpres r inp⟩
  · intro i r hr
    rw [tgGet_broadcast rs g inp i, hr]
    exact ⟨rs r inp, rfl, hpres r inp⟩

theorem clusterInv_onEvent {E : Type} [DecidableEq E] {m : List (Nat × Nat)}
    {g : List (Option (ClusterRoomM E))} (hinv : ClusterInv m g)
    (rs : RoomStep E) (hpres : ∀ r inp, (rs r inp).hash = r.hash)
    (j : Nat) (inp : RoomIn E) : ClusterInv m (tgOnEvent rs g j inp) := by
  refine clusterInv_content hinv ?_ ?_
  · intro i r' hr'
    rw [tgGet_onEvent] at hr'
    by_cases hij : i = j
    · rw [if_pos hij] at hr'
      cases hg : tgGet g j with
      | none => rw [hg] at hr'; cases hr'
      | some r =>
        rw [hg] at hr'
        cases hr'
        exact ⟨r, hij ▸ hg, hpres r inp⟩
    · rw [if_neg hij] at hr'
      exact ⟨r', hr', rfl⟩
  · intro i r hr
    rw [tgGet_onEvent rs g j inp i]
    by_cases hij : i = j
    · rw [if_pos hij, ← hij, hr]
      exact ⟨rs r inp, rfl, hpres r inp⟩
    · rw [if_neg hij]
      exact ⟨r, hr, rfl⟩

theorem tgAddTask_spec {τ : Type} (g : List (Option τ)) (t : τ) :
    tgGet g (tgAddTask g t).1 = none ∧
    tgGet (tgAddTask g t).2 (tgAddTask g t).1 = some t ∧
    (∀ j, j ≠ (tgAddTask g t).1 → tgGet (tgAddTask g t).2 j = tgGet g j) := by
  unfold tgAddTask
  cases hf : tgFreeSlot g with
  | some i =>
    obtain ⟨h1, h2⟩ := tgFreeSlot_spec g i hf
    exact ⟨h1, tgGet_tgSet_self g i _ h2,
      fun j hj => tgGet_tgSet_ne g i j _ (fun he => hj he.symm)⟩
  | none =>
    refine ⟨?_, tgGet_append_self g _, fun j hj => tgGet_append_ne g _ j hj⟩
    cases h : tgGet g g.length with
    | none => rfl
    | some r => exact absurd (tgGet_lt_length g _ r h) (lt_irrefl _)

/-- Creating a room for an unknown hash preserves the coherence invariant
(and inserts matching entries on both sides). -/
theorem clusterInv_add_room {E : Type} [DecidableEq E] {c : MediaClusterM E}
    (hinv : ClusterInv c.rooms_map c.rooms) (rs : RoomStep E)
    (hpres : ∀ r inp, (rs r inp).hash = r.hash) (e : E) (rh : Nat) (ctl : Nat)
    (hl : alookup c.rooms_map rh = none) :
    ClusterInv (ainsert c.rooms_map rh (tgAddTask c.rooms (ClusterRoomM.new rh)).1)
      (tgOnEvent rs (tgAddTask c.rooms (ClusterRoomM.new rh)).2
        (tgAddTask c.rooms (ClusterRoomM.new rh)).1 (.Endpoint e ctl)) := by
  obtain ⟨hfree, hnew, hother⟩ := tgAddTask_spec c.rooms (ClusterRoomM.new rh)
  obtain ⟨h1, h2, h3⟩ := hinv
  have hg2i : tgGet (tgOnEvent rs (tgAddTask c.rooms (ClusterRoomM.new rh)).2
      (tgAddTask c.rooms (ClusterRoomM.new rh)).1 (.Endpoint e ctl))
      (tgAddTask c.rooms (ClusterRoomM.new rh)).1 =
      some (rs (ClusterRoomM.new rh) (.Endpoint e ctl)) := by
    rw [tgGet_onEvent, if_pos rfl, hnew]
    rfl
  have hg2j : ∀ j, j ≠ (tgAddTask c.rooms (ClusterRoomM.new rh)).1 →
      tgGet (tgOnEvent rs (tgAddTask c.rooms (ClusterRoomM.new rh)).2
        (tgAddTask c.rooms (ClusterRoomM.new rh)).1 (.Endpoint e ctl)) j =
      tgGet c.rooms j := by
    intro j hj
    rw [tgGet_onEvent, if_neg hj, hother j hj]
  have hhash : (rs (ClusterRoomM.new rh) (.Endpoint e ctl)).hash = rh := by
    rw [hpres]
    rfl
  refine ⟨?_, ?_, akeys_ainsert_nodup h3 _ _⟩
  · intro h i hlk
    by_cases hh : h = rh
    · subst hh
      rw [alookup_ainsert_self] at hlk
      cases hlk
      exact ⟨_, hg2i, hhash⟩
    · rw [alookup_ainsert_ne _ _ _ hh] at hlk
      obtain ⟨r, hr, hrh⟩ := h1 h i hlk
      have hine : i ≠ (tgAddTask c.rooms (ClusterRoomM.new rh)).1 := by
        intro he
        rw [he, hfree] at hr
        cases hr
      exact ⟨r, by rw [hg2j i hine]; exact hr, hrh⟩
  · intro i r' hr'
    by_cases hie : i = (tgAddTask c.rooms (ClusterRoomM.new rh)).1
    · rw [hie, hg2i] at hr'
      cases hr'
      rw [hhash, hie, alookup_ainsert_self]
    · rw [hg2j i hie] at hr'
      have hold := h2 i r' hr'
      have hne : r'.hash ≠ rh := by
        intro he
        rw [he, hl] at hold
        cases hold
      rw [alookup_ainsert_ne _ _ _ hne]
      exact hold

/-- The first-busy poll with a non-removal head output: the popped room
keeps its hash, so the invariant survives. -/
theorem clusterInv_set_outs {E : Type} [DecidableEq E] {c : MediaClusterM E}
    (hinv : ClusterInv c.rooms_map c.rooms) {i : Nat} {r : ClusterRoomM E}
    (hr : tgGet c.rooms i = some r) (outs' : List (RoomOut E)) :
    ClusterInv c.rooms_map (tgSet c.rooms i (some { r with outs := outs' })) := by
  refine clusterInv_content hinv ?_ ?_
  · intro j r' hr'
    by_cases hij : j = i
    · rw [hij, tgGet_tgSet_self c.rooms i _ (tgGet_lt_length c.rooms i r hr)] at hr'
      cases hr'
      exact ⟨r, hij ▸ hr, rfl⟩
    · rw [tgGet_tgSet_ne c.rooms i j _ (fun he => hij he.symm)] at hr'
      exact ⟨r', hr', rfl⟩
  · intro j r0 hr0
    by_cases hij : j = i
    · subst hij
      rw [hr, Option.some.injEq] at hr0
      refine ⟨{ r with outs := outs' },
        tgGet_tgSet_self c.rooms j _ (tgGet_lt_length c.rooms j r hr), ?_⟩
      rw [← hr0]
    · exact ⟨r0, by
        rw [tgGet_tgSet_ne c.rooms i j _ (fun he => hij he.symm)]
        exact hr0, rfl⟩

/-- `pop_output` on a coherent cluster never panics and preserves the
invariant. -/
theorem clusterInv_pop {E : Type} [DecidableEq E] {c : MediaClusterM E}
    (hinv : ClusterInv c.rooms_map c.rooms) :
    MediaClusterM.pop_output c ≠ .panic ∧
    (∀ o c', MediaClusterM.pop_output c = .out o c' →
      ClusterInv c'.rooms_map c'.rooms) := by
  cases hb : tgFirstBusy c.rooms with
  | none =>
    have hres : MediaClusterM.pop_output c = .idle := by
      unfold MediaClusterM.pop_output
      rw [hb]
    rw [hres]
    exact ⟨(fun h => nomatch h), (fun o c' h => nomatch h)⟩
  | some i =>
    obtain ⟨r, hr, houts⟩ := tgFirstBusy_spec c.rooms i hb
    cases ho : r.outs with
    | nil => exact absurd ho houts
    | cons o0 rest =>
      cases o0 with
      | Sdn ud ctl =>
        have hres : MediaClusterM.pop_output c = .out (.Sdn ud ctl)
            { c with rooms := tgSet c.rooms i (some { r with outs := rest }) } := by
          unfold MediaClusterM.pop_output
          rw [hb]
          simp only [hr, ho]
        rw [hres]
        refine ⟨(fun h => nomatch h), ?_⟩
        intro o c' h
        cases h
        exact clusterInv_set_outs hinv hr rest
      | Endpoint es ev =>
        have hres : MediaClusterM.pop_output c = .out (.Endpoint es ev)
            { c with rooms := tgSet c.rooms i (some { r with outs := rest }) } := by
          unfold MediaClusterM.pop_output
          rw [hb]
          simp only [hr, ho]
        rw [hres]
        refine ⟨(fun h => nomatch h), ?_⟩
        intro o c' h
        cases h
        exact clusterInv_set_outs hinv hr rest
      | OnResourceEmpty =>
        have hlk : alookup c.rooms_map r.hash = some i := hinv.2.1 i r hr
        have hswap : aswapRemove c.rooms_map r.hash =
            some (i, aswapRemoveGo c.rooms_map r.hash) := by
          simp [aswapRemove, hlk]
        have hres : MediaClusterM.pop_output c = .out .Continue
            { c with
                rooms_map := aswapRemoveGo c.rooms_map r.hash
                rooms := tgRemoveTask
                  (tgSet c.rooms i (some { r with outs := rest })) i } := by
          unfold MediaClusterM.pop_output
          rw [hb]
          simp only [hr, ho, hswap]
        rw [hres]
        refine ⟨(fun h => nomatch h), ?_⟩
        intro o c' h
        cases h
        have hlen : i < c.rooms.length := tgGet_lt_length c.rooms i r hr
        have hgi : tgGet (tgRemoveTask
            (tgSet c.rooms i (some { r with outs := rest })) i) i = none := by
          unfold tgRemoveTask
          rw [tgGet_tgSet_self _ i none (by rw [tgSet_length]; exact hlen)]
        have hgj : ∀ j, j ≠ i → tgGet (tgRemoveTask
            (tgSet c.rooms i (some { r with outs := rest })) i) j = tgGet c.rooms j := by
          intro j hj
          unfold tgRemoveTask
          rw [tgGet_tgSet_ne _ i j none (fun he => hj he.symm),
            tgGet_tgSet_ne c.rooms i j _ (fun he => hj he.symm)]
        obtain ⟨h1, h2, h3⟩ := hinv
        refine ⟨?_, ?_, akeys_aswapRemoveGo_nodup h3 _⟩
        · intro h i0 hlk0
          rw [alookup_aswapRemoveGo h3 r.hash h] at hlk0
          by_cases hh : h = r.hash
          · rw [if_pos hh] at hlk0
            cases hlk0
          · rw [if_neg hh] at hlk0
            obtain ⟨r0, hr0, hrh0⟩ := h1 h i0 hlk0
            have hne : i0 ≠ i := by
              intro he
              rw [he, hr, Option.some.injEq] at hr0
              exact hh (by rw [← hrh0, ← hr0])
            exact ⟨r0, by rw [hgj i0 hne]; exact hr0, hrh0⟩
        · intro i0 r0 hr0
          by_cases hie : i0 = i
          · rw [hie, hgi] at hr0
            cases hr0
          · rw [hgj i0 hie] at hr0
            have hold := h2 i0 r0 hr0
            have hne : r0.hash ≠ r.hash := by
              intro he
              rw [he, hlk] at hold
              exact hie (Option.some.inj hold).symm
            rw [alookup_aswapRemoveGo h3 r.hash r0.hash, if_neg hne]
            exact hold

/-- Popping a room's `OnResourceEmpty` removes both the map entry and the
room task and yields `Continue`. -/
theorem pop_room_empty_spec {E : Type} [DecidableEq E] {c : MediaClusterM E}
    (hinv : ClusterInv c.rooms_map c.rooms) {i : Nat} {r : ClusterRoomM E}
    {rest : List (RoomOut E)} (hb : tgFirstBusy c.rooms = some i)
    (hr : tgGet c.rooms i = some r) (ho : r.outs = .OnResourceEmpty :: rest) :
    ∃ c', MediaClusterM.pop_output c = .out .Continue c' ∧
      alookup c'.rooms_map r.hash = none ∧ tgGet c'.rooms i = none := by
  have hlk : alookup c.rooms_map r.hash = some i := hinv.2.1 i r hr
  have hswap : aswapRemove c.rooms_map r.hash =
      some (i, aswapRemoveGo c.rooms_map r.hash) := by
    simp [aswapRemove, hlk]
  have hres : MediaClusterM.pop_output c = .out .Continue
      { c with
          rooms_map := aswapRemoveGo c.rooms_map r.hash
          rooms := tgRemoveTask (tgSet c.rooms i (some { r with outs := rest })) i } := by
    unfold MediaClusterM.pop_output
    rw [hb]
    simp only [hr, ho, hswap]
  refine ⟨_, hres, ?_, ?_⟩
  · rw [alookup_aswapRemoveGo hinv.2.2 r.hash r.hash, if_pos rfl]
  · unfold tgRemoveTask
    rw [tgGet_tgSet_self _ i none
      (by rw [tgSet_length]; exact tgGet_lt_length c.rooms i r hr)]

/-- C10.  Every cluster operation preserves the coherence between
`rooms_map` and the room task group: each map entry points at a live room
task carrying that hash and each live room task is indexed by exactly its
map entry; `pop_output` never hits the map-removal `expect`; in particular
`on_endpoint_control` for an unknown hash inserts both the task and the map
entry, and `pop_output` on a room's `OnResourceEmpty` removes both and
yields `Continue`. -/
theorem C10_rooms_map_task_group_coherence {E : Type} [DecidableEq E]
    (rs : RoomStep E) (hpres : ∀ r inp, (rs r inp).hash = r.hash)
    (c : MediaClusterM E) (hinv : ClusterInv c.rooms_map c.rooms)
    (ud : Nat × Nat) (ev : Nat) (e : E) (rh ctl : Nat) :
    ClusterInv (MediaClusterM.on_tick rs c).rooms_map
      (MediaClusterM.on_tick rs c).rooms ∧
    ClusterInv (MediaClusterM.on_sdn_event rs c ud ev).rooms_map
      (MediaClusterM.on_sdn_event rs c ud ev).rooms ∧
    ClusterInv (MediaClusterM.on_endpoint_control rs c e rh ctl).rooms_map
      (MediaClusterM.on_endpoint_control rs c e rh ctl).rooms ∧
    ClusterInv (MediaClusterM.on_shutdown rs c).rooms_map
      (MediaClusterM.on_shutdown rs c).rooms ∧
    MediaClusterM.pop_output c ≠ ClusterPop.panic ∧
    (∀ o c', MediaClusterM.pop_output c = .out o c' →
      ClusterInv c'.rooms_map c'.rooms) ∧
    (alookup c.rooms_map rh = none →
      ∃ i room,
        alookup (MediaClusterM.on_endpoint_control rs c e rh ctl).rooms_map rh
          = some i ∧
        tgGet (MediaClusterM.on_endpoint_control rs c e rh ctl).rooms i
          = some room ∧
        room.hash = rh) ∧
    (∀ i r rest, tgFirstBusy c.rooms = some i → tgGet c.rooms i = some r →
      r.outs = RoomOut.OnResourceEmpty :: rest →
      ∃ c', MediaClusterM.pop_output c = .out .Continue c' ∧
        alookup c'.rooms_map r.hash = none ∧ tgGet c'.rooms i = none) := by
  refine ⟨?_, ?_, ?_, ?_, (clusterInv_pop hinv).1, (clusterInv_pop hinv).2, ?_, ?_⟩
  · exact clusterInv_broadcast hinv rs hpres .Tick
  · unfold MediaClusterM.on_sdn_event
    cases hl : alookup c.rooms_map ud.1 with
    | none => exact hinv
    | some i => exact clusterInv_onEvent hinv rs hpres i _
  · unfold MediaClusterM.on_endpoint_control
    cases hl : alookup c.rooms_map rh with
    | some i => exact clusterInv_onEvent hinv rs hpres i _
    | none => exact clusterInv_add_room hinv rs hpres e rh ctl hl
  · unfold MediaClusterM.on_shutdown
    by_cases h : c.shutdown
    · rw [if_pos h]
      exact hinv
    · rw [if_neg h]
      exact clusterInv_broadcast hinv rs hpres .Shutdown
  · intro hl
    have hmap : (MediaClusterM.on_endpoint_control rs c e rh ctl).rooms_map =
        ainsert c.rooms_map rh (tgAddTask c.rooms (ClusterRoomM.new rh)).1 := by
      unfold MediaClusterM.on_endpoint_control
      rw [hl]
    have hrooms : (MediaClusterM.on_endpoint_control rs c e rh ctl).rooms =
        tgOnEvent rs (tgAddTask c.rooms (ClusterRoomM.new rh)).2
          (tgAddTask c.rooms (ClusterRoomM.new rh)).1 (.Endpoint e ctl) := by
      unfold MediaClusterM.on_endpoint_control
      rw [hl]
    obtain ⟨hfree, hnew, hother⟩ := tgAddTask_spec c.rooms (ClusterRoomM.new rh)
    refine ⟨(tgAddTask c.rooms (ClusterRoomM.new rh)).1,
      rs (ClusterRoomM.new rh) (.Endpoint e ctl), ?_, ?_, ?_⟩
    · rw [hmap, alookup_ainsert_self]
    · rw [hrooms, tgGet_onEvent, if_pos rfl, hnew]
      rfl
    · rw [hpres]
      rfl
  · intro i r rest hb hr ho
    exact pop_room_empty_spec hinv hb hr ho

/-- The identity room handler (used by witnesses). -/
def rsId {E : Type} : RoomStep E := fun r _ => r

/-- Witness for `C10_rooms_map_task_group_coherence` on the default cluster
and the identity room handler. -/
theorem C10_rooms_map_coherence_witness :
    ((∀ r inp, (rsId (E := Nat) r inp).hash = r.hash) ∧
      ClusterInv (MediaClusterM.default (E := Nat)).rooms_map
        (MediaClusterM.default (E := Nat)).rooms) ∧
    (ClusterInv (MediaClusterM.on_tick rsId (MediaClusterM.default (E := Nat))).rooms_map
      (MediaClusterM.on_tick rsId (MediaClusterM.default (E := Nat))).rooms ∧
    ClusterInv
      (MediaClusterM.on_sdn_event rsId (MediaClusterM.default (E := Nat)) (5, 0) 0).rooms_map
      (MediaClusterM.on_sdn_event rsId (MediaClusterM.default (E := Nat)) (5, 0) 0).rooms ∧
    ClusterInv
      (MediaClusterM.on_endpoint_control rsId (MediaClusterM.default (E := Nat)) 7 5 0).rooms_map
      (MediaClusterM.on_endpoint_control rsId (MediaClusterM.default (E := Nat)) 7 5 0).rooms ∧
    ClusterInv
      (MediaClusterM.on_shutdown rsId (MediaClusterM.default (E := Nat))).rooms_map
      (MediaClusterM.on_shutdown rsId (MediaClusterM.default (E := Nat))).rooms ∧
    MediaClusterM.pop_output (MediaClusterM.default (E := Nat)) ≠ ClusterPop.panic ∧
    (∀ o c', MediaClusterM.pop_output (MediaClusterM.default (E := Nat)) = .out o c' →
      ClusterInv c'.rooms_map c'.rooms) ∧
    (alookup (MediaClusterM.default (E := Nat)).rooms_map 5 = none →
      ∃ i room,
        alookup
          (MediaClusterM.on_endpoint_control rsId (MediaClusterM.default (E := Nat)) 7 5 0).rooms_map 5
          = some i ∧
        tgGet
          (MediaClusterM.on_endpoint_control rsId (MediaClusterM.default (E := Nat)) 7 5 0).rooms i
          = some room ∧
        room.hash = 5) ∧
    (∀ i r rest,
      tgFirstBusy (MediaClusterM.default (E := Nat)).rooms = some i →
      tgGet (MediaClusterM.default (E := Nat)).rooms i = some r →
      r.outs = RoomOut.OnResourceEmpty :: rest →
      ∃ c', MediaClusterM.pop_output (MediaClusterM.default (E := Nat)) = .out .Continue c' ∧
        alookup c'.rooms_map r.hash = none ∧ tgGet c'.rooms i = none)) := by
  have hpres : ∀ (r : ClusterRoomM Nat) inp, (rsId r inp).hash = r.hash :=
    fun r _ => rfl
  have hinv : ClusterInv (MediaClusterM.default (E := Nat)).rooms_map
      (MediaClusterM.default (E := Nat)).rooms :=
    ⟨(fun h i hlk => nomatch hlk), (fun i r hr => nomatch hr), List.nodup_nil⟩
  exact ⟨⟨hpres, hinv⟩,
    C10_rooms_map_task_group_coherence rsId hpres MediaClusterM.default hinv (5, 0) 0 7 5 0⟩

/-! ### Gateway dispatch (claim C4)

From `bin/src/server/gateway/remote_rpc_handler.rs`.  The external
collaborators — geo-IP lookup, node selector, downstream RPC client and the
`now_ms()` clock — are parameters; the dispatch result collects the
telemetry events sent to the connector channel in order, the RPC forwards
issued, and the returned response. -/

/-- `peer_event::route_error::ErrorType`. -/
inductive ErrorType
  | PoolEmpty
  | Timeout
deriving DecidableEq

/-- The telemetry event variants the dispatch emits. -/
inductive PeerEvent2
  | RouteBegin (remote_ip : List Nat)
  | RouteSuccess (after_ms : Nat) (dest_node : Nat)
  | RouteError (after_ms : Nat) (dest_node : Option Nat) (error : ErrorType)
deriving DecidableEq

/-- `PeerEvent`: a telemetry event tagged with the app and session id. -/
structure PeerEvent where
  app : List Nat
  session_id : Nat
  event : PeerEvent2
deriving DecidableEq

/-- Observable result of one gateway connect dispatch. -/
structure GatewayDispatch (Req Res : Type) where
  events : List PeerEvent
  forwarded : List (Nat × Req)
  response : Option Res
deriving DecidableEq

/-- `MediaEdgeServiceHandler::whip_connect`: emit `RouteBegin`, look up the
geo location of the remote ip, ask the selector for a Webrtc node; with no
node emit `RouteError(PoolEmpty, None)` and return the empty response
without forwarding; with a node forward the request and emit
`RouteSuccess` or, on no response, `RouteError(Timeout, Some node)`. -/
def whip_connect {Req Res : Type} (ip2location : List Nat → Option (Nat × Nat))
    (select : Option (Nat × Nat) → Option Nat) (rpc : Nat → Option Res)
    (t0 t1 : Nat) (app : List Nat) (session_id : Nat) (ip : List Nat)
    (req : Req) : GatewayDispatch Req Res :=
  let beginEv : PeerEvent := ⟨app, session_id, .RouteBegin ip⟩
  let location := ip2location ip
  match select location with
  | some node =>
    match rpc node with
    | some res =>
      ⟨[beginEv, ⟨app, session_id, .RouteSuccess (t1 - t0) node⟩],
       [(node, req)], some res⟩
    | none =>
      ⟨[beginEv, ⟨app, session_id, .RouteError (t1 - t0) (some node) .Timeout⟩],
       [(node, req)], none⟩
  | none =>
    ⟨[beginEv, ⟨app, session_id, .RouteError (t1 - t0) none .PoolEmpty⟩],
     [], none⟩

/-- `MediaEdgeServiceHandler::whep_connect`: same routing skeleton as
`whip_connect`. -/
def whep_connect {Req Res : Type} (ip2location : List Nat → Option (Nat × Nat))
    (select : Option (Nat × Nat) → Option Nat) (rpc : Nat → Option Res)
    (t0 t1 : Nat) (app : List Nat) (session_id : Nat) (ip : List Nat)
    (req : Req) : GatewayDispatch Req Res :=
  let beginEv : PeerEvent := ⟨app, session_id, .RouteBegin ip⟩
  let location := ip2location ip
  match select location with
  | some node =>
    match rpc node with
    | some res =>
      ⟨[beginEv, ⟨app, session_id, .RouteSuccess (t1 - t0) node⟩],
       [(node, req)], some res⟩
    | none =>
      ⟨[beginEv, ⟨app, session_id, .RouteError (t1 - t0) (some node) .Timeout⟩],
       [(node, req)], none⟩
  | none =>
    ⟨[beginEv, ⟨app, session_id, .RouteError (t1 - t0) none .PoolEmpty⟩],
     [], none⟩

/-- `MediaEdgeServiceHandler::webrtc_connect`: same routing skeleton as
`whip_connect`. -/
def webrtc_connect {Req Res : Type} (ip2location : List Nat → Option (Nat × Nat))
    (select : Option (Nat × Nat) → Option Nat) (rpc : Nat → Option Res)
    (t0 t1 : Nat) (app : List Nat) (session_id : Nat) (ip : List Nat)
    (req : Req) : GatewayDispatch Req Res :=
  let beginEv : PeerEvent := ⟨app, session_id, .RouteBegin ip⟩
  let location := ip2location ip
  match select location with
  | some node =>
    match rpc node with
    | some res =>
      ⟨[beginEv, ⟨app, session_id, .RouteSuccess (t1 - t0) node⟩],
       [(node, req)], some res⟩
    | none =>
      ⟨[beginEv, ⟨app, session_id, .RouteError (t1 - t0) (some node) .Timeout⟩],
       [(node, req)], none⟩
  | none =>
    ⟨[beginEv, ⟨app, session_id, .RouteError (t1 - t0) none .PoolEmpty⟩],
     [], none⟩

/-- C4.  When the selector returns no node, `whip_connect`, `whep_connect`
and `webrtc_connect` each emit exactly `RouteBegin` followed by
`RouteError` with error `PoolEmpty` and `dest_node = None`, return the
empty response, and never forward the RPC. -/
theorem C4_pool_empty_route_error {Req Res : Type}
    (ip2location : List Nat → Option (Nat × Nat))
    (select : Option (Nat × Nat) → Option Nat) (rpc : Nat → Option Res)
    (t0 t1 : Nat) (app : List Nat) (session_id : Nat) (ip : List Nat) (req : Req)
    (hsel : select (ip2location ip) = none) :
    whip_connect ip2location select rpc t0 t1 app session_id ip req =
      ⟨[⟨app, session_id, .RouteBegin ip⟩,
        ⟨app, session_id, .RouteError (t1 - t0) none .PoolEmpty⟩], [], none⟩ ∧
    whep_connect ip2location select rpc t0 t1 app session_id ip req =
      ⟨[⟨app, session_id, .RouteBegin ip⟩,
        ⟨app, session_id, .RouteError (t1 - t0) none .PoolEmpty⟩], [], none⟩ ∧
    webrtc_connect ip2location select rpc t0 t1 app session_id ip req =
      ⟨[⟨app, session_id, .RouteBegin ip⟩,
        ⟨app, session_id, .RouteError (t1 - t0) none .PoolEmpty⟩], [], none⟩ := by
  refine ⟨?_, ?_, ?_⟩ <;> simp [whip_connect, whep_connect, webrtc_connect, hsel]

/-- Witness for `C4_pool_empty_route_error` with an always-empty selector. -/
theorem C4_pool_empty_route_error_witness :
    ((fun (_ : Option (Nat × Nat)) => (none : Option Nat)) ((fun _ => none) [127]) = none) ∧
    (whip_connect (fun _ => none) (fun _ => none)
        (fun _ => (none : Option Nat)) 10 25 [97] 6 [127] (0 : Nat) =
      ⟨[⟨[97], 6, .RouteBegin [127]⟩,
        ⟨[97], 6, .RouteError 15 none .PoolEmpty⟩], [], none⟩ ∧
     whep_connect (fun _ => none) (fun _ => none)
        (fun _ => (none : Option Nat)) 10 25 [97] 6 [127] (0 : Nat) =
      ⟨[⟨[97], 6, .RouteBegin [127]⟩,
        ⟨[97], 6, .RouteError 15 none .PoolEmpty⟩], [], none⟩ ∧
     webrtc_connect (fun _ => none) (fun _ => none)
        (fun _ => (none : Option Nat)) 10 25 [97] 6 [127] (0 : Nat) =
      ⟨[⟨[97], 6, .RouteBegin [127]⟩,
        ⟨[97], 6, .RouteError 15 none .PoolEmpty⟩], [], none⟩) :=
  ⟨rfl, C4_pool_empty_route_error (fun _ => none) (fun _ => none) (fun _ => none)
    10 25 [97] 6 [127] 0 rfl⟩

/-! ### The WebRTC worker (claim C8)

From `packages/transport_webrtc/src/worker.rs`.  Endpoint tasks are kept
abstract (type `EP` with a handler `epStep`); `TransportWebrtc::new` is an
external collaborator modelled by a parameter `tranNew` from the SDP offer
to the server ufrag and the SDP answer; `gen_cluster_session_id` is the
parameter `new_session_id`.  UDP sockets, the DTLS certificate and the
packet-demux arm are not touched by this claim and are omitted. -/

/-- `ExtIn` of the WebRTC worker; payloads not observed by the claim are
numeric codes or byte lists. -/
inductive WExtIn
  | RemoteIce (req_id variant : Nat)
  | RestartIce (req_id : Nat) (app : List Nat) (variant : Nat) (remote : Nat)
      (useragent : List Nat) (reqSdp : List Nat) (extra_data : List Nat)
      (record : Bool)
  | Disconnect (req_id variant : Nat)
deriving DecidableEq

/-- `ExtOut` of the worker; the `RpcEndpointNotFound` error result is
`none`. -/
inductive WExtOut
  | RemoteIce (req_id variant : Nat) (res : Option Unit)
  | RestartIce (req_id variant : Nat) (res : Option (Bool × List Nat))
  | Disconnect (req_id variant : Nat) (res : Option Unit)
deriving DecidableEq

/-- `GroupOutput` restricted to the variants this claim observes. -/
inductive WGroupOut
  | Ext (owner : Nat) (out : WExtOut)
  | Continue
deriving DecidableEq

/-- `MediaWorkerWebrtc`: ice-lite flag, shared-port ufrag index, endpoint
task arena, outbound queue and shutdown flag. -/
structure MediaWorkerWebrtc (EP : Type) where
  ice_lite : Bool
  shared_port_ufrags : List (List Nat × Nat)
  endpoints : List (Option EP)
  queue : List WGroupOut
  shutdown : Bool
deriving DecidableEq

/-- `MediaWorkerWebrtc::spawn`: create the transport (parameter `tranNew`,
`none` for a transport error), add the endpoint task, register the
server-side ufrag in the shared UDP demux (`SharedUdpPort::add_ufrag`),
and return `(ice_lite, sdp, index)`. -/
def MediaWorkerWebrtc.spawn {EP : Type}
    (tranNew : List Nat → Option (List Nat × List Nat)) (mkEndpoint : Nat → EP)
    (w : MediaWorkerWebrtc EP) (session_id : Nat) (offer : List Nat) :
    Option (Bool × List Nat × Nat) × MediaWorkerWebrtc EP :=
  match tranNew offer with
  | none => (none, w)
  | some pr =>
    let added := tgAddTask w.endpoints (mkEndpoint session_id)
    (some (w.ice_lite, pr.2, added.1),
     { w with
        endpoints := added.2
        shared_port_ufrags := ainsert w.shared_port_ufrags pr.1 added.1 })

/-- The `GroupInput::Ext` arm of `MediaWorkerWebrtc::on_event`: a live
owner task receives the input; for a dead owner, `RemoteIce` and
`Disconnect` answer `RpcEndpointNotFound`, while `RestartIce` spawns a new
endpoint task with a fresh session id and queues the new ice-lite flag and
SDP answer addressed to the new index (or the not-found error when the
transport fails). -/
def MediaWorkerWebrtc.on_ext {EP : Type}
    (tranNew : List Nat → Option (List Nat × List Nat)) (mkEndpoint : Nat → EP)
    (epStep : EP → WExtIn → EP) (new_session_id : Nat) (w : MediaWorkerWebrtc EP)
    (owner : Nat) (ext : WExtIn) : MediaWorkerWebrtc EP :=
  if tgHasTask w.endpoints owner then
    match tgGet w.endpoints owner with
    | none => w
    | some ep => { w with endpoints := tgSet w.endpoints owner (some (epStep ep ext)) }
  else
    match ext with
    | .RemoteIce req_id variant =>
      { w with queue := w.queue ++ [.Ext owner (.RemoteIce req_id variant none)] }
    | .RestartIce req_id _app variant _remote _ua reqSdp _extra _record =>
      match MediaWorkerWebrtc.spawn tranNew mkEndpoint w new_session_id reqSdp with
      | (some r, w1) =>
        { w1 with queue := w1.queue ++
            [.Ext r.2.2 (.RestartIce req_id variant (some (r.1, r.2.1)))] }
      | (none, w1) =>
        { w1 with queue := w1.queue ++
            [.Ext owner (.RestartIce req_id variant none)] }
    | .Disconnect req_id variant =>
      { w with queue := w.queue ++ [.Ext owner (.Disconnect req_id variant none)] }

theorem tgTasks_set_some_of_none {τ : Type} :
    ∀ (g : List (Option τ)) (i : Nat) (t : τ), tgGet g i = none → i < g.length →
      tgTasks (tgSet g i (some t)) = tgTasks g + 1 := by
  intro g
  induction g with
  | nil => intro i t _ hlen; simp at hlen
  | cons x rest ih =>
    intro i t hget hlen
    cases i with
    | zero =>
      cases x with
      | none => rfl
      | some y => cases hget
    | succ i =>
      show tgTasks (x :: tgSet rest i (some t)) = tgTasks (x :: rest) + 1
      cases x with
      | none =>
        show tgTasks (tgSet rest i (some t)) = tgTasks rest + 1
        exact ih i t hget (by simpa using hlen)
      | some y =>
        show tgTasks (tgSet rest i (some t)) + 1 = tgTasks rest + 1 + 1
        rw [ih i t hget (by simpa using hlen)]

theorem tgTasks_append_some {τ : Type} (g : List (Option τ)) (t : τ) :
    tgTasks (g ++ [some t]) = tgTasks g + 1 := by
  induction g with
  | nil => rfl
  | cons x rest ih =>
    cases x with
    | none => simpa using ih
    | some y =>
      show tgTasks (rest ++ [some t]) + 1 = tgTasks rest + 1 + 1
      rw [ih]

theorem tgAddTask_tasks {τ : Type} (g : List (Option τ)) (t : τ) :
    tgTasks (tgAddTask g t).2 = tgTasks g + 1 := by
  unfold tgAddTask
  cases hf : tgFreeSlot g with
  | some i =>
    obtain ⟨h1, h2⟩ := tgFreeSlot_spec g i hf
    exact tgTasks_set_some_of_none g i t h1 h2
  | none => exact tgTasks_append_some g t

/-- C8, counterexample.  On a worker whose endpoint task 0 is alive,
processing `ExtIn::RestartIce` addressed to owner 0 forwards the input to
the existing endpoint: no new endpoint task is spawned, no ufrag is
registered and no `Ext RestartIce` output is queued — refuting the claim's
"for every worker state".  Concrete instance: one live (inert) endpoint
task, a transport constructor that would succeed. -/
theorem C8_restart_ice_counterexample :
    (MediaWorkerWebrtc.on_ext (fun _ => some ([1], [2])) (fun _ => ())
        (fun ep _ => ep) 42
        (⟨true, [([9], 0)], [some ()], [], false⟩ : MediaWorkerWebrtc Unit) 0
        (.RestartIce 5 [] 1 0 [] [3] [] false)).endpoints = [some ()] ∧
    (MediaWorkerWebrtc.on_ext (fun _ => some ([1], [2])) (fun _ => ())
        (fun ep _ => ep) 42
        (⟨true, [([9], 0)], [some ()], [], false⟩ : MediaWorkerWebrtc Unit) 0
        (.RestartIce 5 [] 1 0 [] [3] [] false)).queue = [] ∧
    ¬ (tgTasks (MediaWorkerWebrtc.on_ext (fun _ => some ([1], [2])) (fun _ => ())
        (fun ep _ => ep) 42
        (⟨true, [([9], 0)], [some ()], [], false⟩ : MediaWorkerWebrtc Unit) 0
        (.RestartIce 5 [] 1 0 [] [3] [] false)).endpoints =
      tgTasks ([some ()] : List (Option Unit)) + 1) := by
  refine ⟨?_, ?_, ?_⟩ <;> decide

/-- C8 (amended).  When the `RestartIce` input's owner task is **absent**
and the transport constructor succeeds, the worker spawns a new endpoint
task (one more live task; all previously live tasks stay), registers its
server-side ufrag in the shared UDP demux, and queues an `Ext RestartIce`
output carrying the ice-lite flag and the new SDP answer, addressed to the
new task's index; no existing endpoint task is removed.  With a live owner
the input is forwarded to that endpoint instead and nothing is spawned. -/
theorem C8_restart_ice_spawns_when_absent {EP : Type} [DecidableEq EP]
    (tranNew : List Nat → Option (List Nat × List Nat)) (mkEndpoint : Nat → EP)
    (epStep : EP → WExtIn → EP) (nsid : Nat) (w : MediaWorkerWebrtc EP)
    (owner req_id variant remote : Nat) (app ua reqSdp extra ufrag sdp : List Nat)
    (record : Bool) (habs : tgHasTask w.endpoints owner = false)
    (htran : tranNew reqSdp = some (ufrag, sdp)) :
    (MediaWorkerWebrtc.on_ext tranNew mkEndpoint epStep nsid w owner
        (.RestartIce req_id app variant remote ua reqSdp extra record)).endpoints =
      (tgAddTask w.endpoints (mkEndpoint nsid)).2 ∧
    tgGet (MediaWorkerWebrtc.on_ext tranNew mkEndpoint epStep nsid w owner
        (.RestartIce req_id app variant remote ua reqSdp extra record)).endpoints
      (tgAddTask w.endpoints (mkEndpoint nsid)).1 = some (mkEndpoint nsid) ∧
    tgTasks (MediaWorkerWebrtc.on_ext tranNew mkEndpoint epStep nsid w owner
        (.RestartIce req_id app variant remote ua reqSdp extra record)).endpoints =
      tgTasks w.endpoints + 1 ∧
    (∀ j, tgHasTask w.endpoints j = true →
      tgHasTask (MediaWorkerWebrtc.on_ext tranNew mkEndpoint epStep nsid w owner
        (.RestartIce req_id app variant remote ua reqSdp extra record)).endpoints j
        = true) ∧
    (MediaWorkerWebrtc.on_ext tranNew mkEndpoint epStep nsid w owner
        (.RestartIce req_id app variant remote ua reqSdp extra record)).shared_port_ufrags =
      ainsert w.shared_port_ufrags ufrag (tgAddTask w.endpoints (mkEndpoint nsid)).1 ∧
    (MediaWorkerWebrtc.on_ext tranNew mkEndpoint epStep nsid w owner
        (.RestartIce req_id app variant remote ua reqSdp extra record)).queue =
      w.queue ++ [.Ext (tgAddTask w.endpoints (mkEndpoint nsid)).1
        (.RestartIce req_id variant (some (w.ice_lite, sdp)))] := by
  obtain ⟨hfree, hnew, hother⟩ := tgAddTask_spec w.endpoints (mkEndpoint nsid)
  have hres : MediaWorkerWebrtc.on_ext tranNew mkEndpoint epStep nsid w owner
      (.RestartIce req_id app variant remote ua reqSdp extra record) =
      { w with
          endpoints := (tgAddTask w.endpoints (mkEndpoint nsid)).2
          shared_port_ufrags :=
            ainsert w.shared_port_ufrags ufrag (tgAddTask w.endpoints (mkEndpoint nsid)).1
          queue := w.queue ++ [.Ext (tgAddTask w.endpoints (mkEndpoint nsid)).1
            (.RestartIce req_id variant (some (w.ice_lite, sdp)))] } := by
    unfold MediaWorkerWebrtc.on_ext
    rw [habs]
    simp only [Bool.false_eq_true, if_false, MediaWorkerWebrtc.spawn, htran]
  rw [hres]
  refine ⟨rfl, hnew, tgAddTask_tasks w.endpoints (mkEndpoint nsid), ?_, rfl, rfl⟩
  intro j hj
  by_cases hje : j = (tgAddTask w.endpoints (mkEndpoint nsid)).1
  · unfold tgHasTask
    rw [hje, hnew]
    rfl
  · unfold tgHasTask
    rw [hother j hje]
    exact hj

/-- Witness for `C8_restart_ice_spawns_when_absent` on an empty worker. -/
theorem C8_restart_ice_spawns_witness :
    (tgHasTask (([] : List (Option Unit))) 0 = false ∧
      (fun (_ : List Nat) => some (([1], [2]) : List Nat × List Nat)) [3] =
        some ([1], [2])) ∧
    ((MediaWorkerWebrtc.on_ext (fun _ => some ([1], [2])) (fun _ => ())
        (fun ep _ => ep) 42
        (⟨true, [], [], [], false⟩ : MediaWorkerWebrtc Unit) 0
        (.RestartIce 5 [] 1 0 [] [3] [] false)).endpoints =
      (tgAddTask ([] : List (Option Unit)) ()).2 ∧
    tgGet (MediaWorkerWebrtc.on_ext (fun _ => some ([1], [2])) (fun _ => ())
        (fun ep _ => ep) 42
        (⟨true, [], [], [], false⟩ : MediaWorkerWebrtc Unit) 0
        (.RestartIce 5 [] 1 0 [] [3] [] false)).endpoints
      (tgAddTask ([] : List (Option Unit)) ()).1 = some () ∧
    tgTasks (MediaWorkerWebrtc.on_ext (fun _ => some ([1], [2])) (fun _ => ())
        (fun ep _ => ep) 42
        (⟨true, [], [], [], false⟩ : MediaWorkerWebrtc Unit) 0
        (.RestartIce 5 [] 1 0 [] [3] [] false)).endpoints =
      tgTasks ([] : List (Option Unit)) + 1 ∧
    (∀ j, tgHasTask ([] : List (Option Unit)) j = true →
      tgHasTask (MediaWorkerWebrtc.on_ext (fun _ => some ([1], [2])) (fun _ => ())
        (fun ep _ => ep) 42
        (⟨true, [], [], [], false⟩ : MediaWorkerWebrtc Unit) 0
        (.RestartIce 5 [] 1 0 [] [3] [] false)).endpoints j = true) ∧
    (MediaWorkerWebrtc.on_ext (fun _ => some ([1], [2])) (fun _ => ())
        (fun ep _ => ep) 42
        (⟨true, [], [], [], false⟩ : MediaWorkerWebrtc Unit) 0
        (.RestartIce 5 [] 1 0 [] [3] [] false)).shared_port_ufrags =
      ainsert [] [1] (tgAddTask ([] : List (Option Unit)) ()).1 ∧
    (MediaWorkerWebrtc.on_ext (fun _ => some ([1], [2])) (fun _ => ())
        (fun ep _ => ep) 42
        (⟨true, [], [], [], false⟩ : MediaWorkerWebrtc Unit) 0
        (.RestartIce 5 [] 1 0 [] [3] [] false)).queue =
      [] ++ [.Ext (tgAddTask ([] : List (Option Unit)) ()).1
        (.RestartIce 5 1 (some (true, [2])))]) :=
  ⟨⟨by decide, rfl⟩,
    C8_restart_ice_spawns_when_absent (fun _ => some ([1], [2])) (fun _ => ())
      (fun ep _ => ep) 42 ⟨true, [], [], [], false⟩ 0 5 1 0 [] [] [3] [] [1] [2]
      false (by decide) rfl⟩

end MediaServer
